import Mathlib

/-!
Verification of the MeetingServer core against its specification.

Shallow embedding of:
 * `src/common/status.hpp`                       — status codes and results
 * `src/core/meeting/meeting_repository.cpp`     — `InMemoryMeetingRepository`
 * `src/core/meeting/meeting_manager.cpp`        — `MeetingManager` (the
   canonical numeric-id snapshot, per spec §4.6 / design notes)
 * `src/core/user/session_manager.cpp`           — `SessionManager`
 * `src/core/user/cached_session_repository.cpp` — cache-side expiry check
 * `src/thread_pool/include/mpmc/bounded_circular_queue.hpp`
 * `src/thread_pool/include/mpmc/blocking_queue_adapter.hpp`
 * `src/thread_pool/src/thread_pool.cpp` and `thread_pool.hpp` — the
   submission entry points and the shutdown/statistics protocol.

Concurrency is modelled sequentially (single-threaded interleavings: every
CAS succeeds, condition waits are resolved by hypotheses) or, for the pool
statistics, as an explicit event/step protocol whose constructors are each
justified by a code path.  Machine integers are Nat with an explicit
`% 2^64` where overflow can actually occur (capacity rounding); queue
positions are unbounded Nat, which agrees with the 64-bit wrapping
counters and the `ptrdiff_t` casts as long as fewer than `2^63` operations
are performed.
-/

namespace MeetingServer

/-- Status codes from `src/common/status.hpp` (`enum class StatusCode`). -/
inductive StatusCode
  | kOk
  | kInvalidArgument
  | kNotFound
  | kAlreadyExists
  | kUnauthenticated
  | kInternal
  | kUnavailable
deriving DecidableEq, Repr

/-- From the source: `meeting::common::Status`: a code plus a human-readable message. -/
structure Status where
  code : StatusCode
  message : String
deriving DecidableEq, Repr

def Status.OK : Status := ⟨StatusCode.kOk, ""⟩

def Status.InvalidArgument (m : String) : Status := ⟨StatusCode.kInvalidArgument, m⟩

def Status.NotFound (m : String) : Status := ⟨StatusCode.kNotFound, m⟩

def Status.AlreadyExists (m : String) : Status := ⟨StatusCode.kAlreadyExists, m⟩

def Status.Unauthenticated (m : String) : Status := ⟨StatusCode.kUnauthenticated, m⟩

def Status.Internal (m : String) : Status := ⟨StatusCode.kInternal, m⟩

def Status.Unavailable (m : String) : Status := ⟨StatusCode.kUnavailable, m⟩

/-- From the source: `Status::IsOk()`. -/
def Status.IsOk (s : Status) : Bool := s.code = StatusCode.kOk

/-- From the source: `enum class MeetingState` (meeting_manager.hpp). -/
inductive MeetingState
  | kScheduled
  | kRunning
  | kEnded
deriving DecidableEq, Repr

/-- From the source: `MeetingData` of the canonical (numeric organizer id) `MeetingManager`
snapshot used by `meeting_manager.cpp`: organizer and participants are
numeric (`std::uint64_t`) ids, modelled as `Nat`. -/
structure MeetingData where
  meeting_id : String
  meeting_code : String
  organizer_id : Nat
  topic : String
  state : MeetingState
  participants : List Nat
  created_at : Int
  updated_at : Int
deriving DecidableEq, Repr

/-- From the source: `MeetingConfig` (meeting_manager.hpp). -/
structure MeetingConfig where
  max_participants : Nat := 100
  end_when_empty : Bool := true
  end_when_organizer_leaves : Bool := true
  meeting_code_length : Nat := 8
deriving DecidableEq, Repr

/-- The `InMemoryMeetingRepository` state: the `meetings_` map
(`meeting_id -> MeetingData`), modelled as an association list with
unique keys (insertion happens only after a failed find). -/
abbrev MeetingRepo : Type := List (String × MeetingData)

/-- Record of the mutating repository calls a manager operation issues, in
issue order (used to check write ordering, e.g. membership before state). -/
inductive RepoWrite
  | wCreate (meeting_id : String)
  | wAdd (meeting_id : String) (participant_id : Nat)
  | wRemove (meeting_id : String) (participant_id : Nat)
  | wUpdateState (meeting_id : String) (state : MeetingState) (updated_at : Int)
deriving DecidableEq, Repr

/-- From the source: `InMemoryMeetingRepository::CreateMeeting`: fail with AlreadyExists if
the id is present, otherwise insert. -/
def repoCreateMeeting (r : MeetingRepo) (d : MeetingData) : Status × MeetingRepo :=
  match r.lookup d.meeting_id with
  | some _ => (Status.AlreadyExists "meeting already exists", r)
  | none => (Status.OK, r ++ [(d.meeting_id, d)])

/-- From the source: `InMemoryMeetingRepository::GetMeeting`. -/
def repoGetMeeting (r : MeetingRepo) (meeting_id : String) : Except Status MeetingData :=
  match r.lookup meeting_id with
  | some m => Except.ok m
  | none => Except.error (Status.NotFound "meeting not found")

/-- Map-update helper for the association-list map: rewrite the value bound
to a key in place. -/
def repoSet (r : MeetingRepo) (meeting_id : String) (f : MeetingData → MeetingData) :
    MeetingRepo :=
  r.map (fun p => if p.1 = meeting_id then (p.1, f p.2) else p)

/-- From the source: `InMemoryMeetingRepository::UpdateMeetingState`. -/
def repoUpdateMeetingState (r : MeetingRepo) (meeting_id : String)
    (st : MeetingState) (updated_at : Int) : Status × MeetingRepo :=
  match r.lookup meeting_id with
  | none => (Status.NotFound "meeting not found", r)
  | some _ =>
    (Status.OK, repoSet r meeting_id (fun m => { m with state := st, updated_at := updated_at }))

/-- From the source: `InMemoryMeetingRepository::AddParticipant`: NotFound if the meeting is
absent, AlreadyExists if the participant is already in the list, otherwise
`push_back`.  The `is_organizer` flag is ignored by the in-memory impl. -/
def repoAddParticipant (r : MeetingRepo) (meeting_id : String) (participant_id : Nat)
    (_is_organizer : Bool) : Status × MeetingRepo :=
  match r.lookup meeting_id with
  | none => (Status.NotFound "meeting not found", r)
  | some m =>
    if participant_id ∈ m.participants then
      (Status.AlreadyExists "participant already in meeting", r)
    else
      (Status.OK,
        repoSet r meeting_id (fun m =>
          { m with participants := m.participants ++ [participant_id] }))

/-- From the source: `InMemoryMeetingRepository::RemoveParticipant`: NotFound if the meeting
or the participant is absent, otherwise erase the entry. -/
def repoRemoveParticipant (r : MeetingRepo) (meeting_id : String)
    (participant_id : Nat) : Status × MeetingRepo :=
  match r.lookup meeting_id with
  | none => (Status.NotFound "meeting not found", r)
  | some m =>
    if participant_id ∈ m.participants then
      (Status.OK,
        repoSet r meeting_id (fun m =>
          { m with participants := m.participants.erase participant_id }))
    else
      (Status.NotFound "participant not in meeting", r)

/-- From the source: `InMemoryMeetingRepository::ListParticipants`. -/
def repoListParticipants (r : MeetingRepo) (meeting_id : String) :
    Except Status (List Nat) :=
  match r.lookup meeting_id with
  | some m => Except.ok m.participants
  | none => Except.error (Status.NotFound "meeting not found")

/-- From the source: `CreateMeetingCommand` (numeric snapshot). -/
structure CreateMeetingCommand where
  organizer_id : Nat
  topic : String

/-- From the source: `JoinMeetingCommand` (numeric snapshot). -/
structure JoinMeetingCommand where
  meeting_id : String
  participant_id : Nat

/-- From the source: `LeaveMeetingCommand` (numeric snapshot). -/
structure LeaveMeetingCommand where
  meeting_id : String
  participant_id : Nat

/-- From the source: `EndMeetingCommand` (numeric snapshot). -/
structure EndMeetingCommand where
  meeting_id : String
  requester_id : Nat

/-- From the source: `MeetingManager::CreateMeeting`.  The randomly generated meeting id and
code (`GenerateMeetingID` / `GenerateMeetingCode`) and the wall clock
(`CurrentUnixSeconds`) are passed in as oracle parameters.  Returns the
result, the repository after the call, and the issued writes. -/
def createMeeting (r : MeetingRepo) (command : CreateMeetingCommand)
    (gen_id gen_code : String) (now : Int) :
    Except Status MeetingData × MeetingRepo × List RepoWrite :=
  if command.organizer_id = 0 then
    (Except.error (Status.InvalidArgument "Organizer ID cannot be empty."), r, [])
  else if command.topic = "" then
    (Except.error (Status.InvalidArgument "Meeting topic cannot be empty."), r, [])
  else
    let meeting : MeetingData :=
      { meeting_id := gen_id
        meeting_code := gen_code
        organizer_id := command.organizer_id
        topic := command.topic
        state := MeetingState.kScheduled
        created_at := now
        updated_at := now
        participants := [command.organizer_id] }
    let (st, r1) := repoCreateMeeting r meeting
    if st.IsOk = false then
      (Except.error st, r1, [RepoWrite.wCreate gen_id])
    else
      let (add_st, r2) := repoAddParticipant r1 meeting.meeting_id meeting.organizer_id true
      if add_st.IsOk = false ∧ add_st.code ≠ StatusCode.kAlreadyExists then
        (Except.error add_st, r2,
          [RepoWrite.wCreate gen_id, RepoWrite.wAdd gen_id command.organizer_id])
      else
        (Except.ok meeting, r2,
          [RepoWrite.wCreate gen_id, RepoWrite.wAdd gen_id command.organizer_id])

/-- From the source: `MeetingManager::JoinMeeting`: validate inputs, fetch, reject Ended /
duplicate / full, persist membership, then (if the state was Scheduled and
the joiner is not the organizer) persist the Scheduled→Running transition. -/
def joinMeeting (config : MeetingConfig) (r : MeetingRepo)
    (command : JoinMeetingCommand) (now : Int) :
    Except Status MeetingData × MeetingRepo × List RepoWrite :=
  if command.meeting_id = "" then
    (Except.error (Status.InvalidArgument "Meeting ID cannot be empty."), r, [])
  else if command.participant_id = 0 then
    (Except.error (Status.InvalidArgument "Participant ID cannot be empty."), r, [])
  else
    match repoGetMeeting r command.meeting_id with
    | Except.error st => (Except.error st, r, [])
    | Except.ok meeting =>
      if meeting.state = MeetingState.kEnded then
        (Except.error (Status.InvalidArgument "Cannot join a meeting that has ended."), r, [])
      else if command.participant_id ∈ meeting.participants then
        (Except.error (Status.AlreadyExists "Participant already in the meeting."), r, [])
      else if config.max_participants ≤ meeting.participants.length then
        (Except.error (Status.Unavailable "Meeting has reached maximum participant limit."),
          r, [])
      else
        let (st, r1) := repoAddParticipant r command.meeting_id command.participant_id false
        if st.IsOk = false then
          (Except.error st, r1, [RepoWrite.wAdd command.meeting_id command.participant_id])
        else if meeting.state = MeetingState.kScheduled ∧
            command.participant_id ≠ meeting.organizer_id then
          let meeting1 := { meeting with state := MeetingState.kRunning }
          let (_, r2) := repoUpdateMeetingState r1 meeting1.meeting_id meeting1.state now
          let meeting2 :=
            { meeting1 with
              participants := meeting1.participants ++ [command.participant_id]
              updated_at := now }
          (Except.ok meeting2, r2,
            [RepoWrite.wAdd command.meeting_id command.participant_id,
             RepoWrite.wUpdateState meeting1.meeting_id MeetingState.kRunning now])
        else
          let meeting2 :=
            { meeting with
              participants := meeting.participants ++ [command.participant_id]
              updated_at := now }
          (Except.ok meeting2, r1,
            [RepoWrite.wAdd command.meeting_id command.participant_id])

/-- From the source: `MeetingManager::LeaveMeeting`: validate, fetch, reject an absent
participant (the code returns `Status::AlreadyExists` with a "not found"
message), remove membership, then end the meeting if the organizer left
with `end_when_organizer_leaves`, or if it became empty with
`end_when_empty`. -/
def leaveMeeting (config : MeetingConfig) (r : MeetingRepo)
    (command : LeaveMeetingCommand) (now : Int) :
    Status × MeetingRepo × List RepoWrite :=
  if command.meeting_id = "" then
    (Status.InvalidArgument "Meeting ID cannot be empty.", r, [])
  else if command.participant_id = 0 then
    (Status.InvalidArgument "Participant ID cannot be empty.", r, [])
  else
    match repoGetMeeting r command.meeting_id with
    | Except.error st => (st, r, [])
    | Except.ok meeting =>
      if command.participant_id ∈ meeting.participants then
        let (rm_st, r1) := repoRemoveParticipant r command.meeting_id command.participant_id
        if rm_st.IsOk = false then
          (rm_st, r1, [RepoWrite.wRemove command.meeting_id command.participant_id])
        else if command.participant_id = meeting.organizer_id ∧
            config.end_when_organizer_leaves then
          let (_, r2) :=
            repoUpdateMeetingState r1 meeting.meeting_id MeetingState.kEnded now
          (Status.OK, r2,
            [RepoWrite.wRemove command.meeting_id command.participant_id,
             RepoWrite.wUpdateState meeting.meeting_id MeetingState.kEnded now])
        else
          let remaining :=
            match repoListParticipants r1 meeting.meeting_id with
            | Except.ok l => l
            | Except.error _ => meeting.participants
          if remaining = [] ∧ config.end_when_empty then
            let (_, r2) :=
              repoUpdateMeetingState r1 meeting.meeting_id MeetingState.kEnded now
            (Status.OK, r2,
              [RepoWrite.wRemove command.meeting_id command.participant_id,
               RepoWrite.wUpdateState meeting.meeting_id MeetingState.kEnded now])
          else
            (Status.OK, r1,
              [RepoWrite.wRemove command.meeting_id command.participant_id])
      else
        (Status.AlreadyExists "Participant not found in the meeting.", r, [])

/-- From the source: `MeetingManager::EndMeeting`: validate, fetch, reject when already
Ended (this check comes first in the code), then require the requester to
be the organizer, then persist the Ended transition. -/
def endMeeting (r : MeetingRepo) (command : EndMeetingCommand) (now : Int) :
    Status × MeetingRepo × List RepoWrite :=
  if command.meeting_id = "" then
    (Status.InvalidArgument "Meeting ID cannot be empty.", r, [])
  else if command.requester_id = 0 then
    (Status.InvalidArgument "Requester ID cannot be empty.", r, [])
  else
    match repoGetMeeting r command.meeting_id with
    | Except.error st => (st, r, [])
    | Except.ok meeting =>
      if meeting.state = MeetingState.kEnded then
        (Status.InvalidArgument "Meeting has already ended.", r, [])
      else if command.requester_id ≠ meeting.organizer_id then
        (Status.Unauthenticated "Only the organizer can end the meeting.", r, [])
      else
        let (st, r1) :=
          repoUpdateMeetingState r command.meeting_id MeetingState.kEnded now
        (st, r1,
          [RepoWrite.wUpdateState command.meeting_id MeetingState.kEnded now])

/-- From the source: `SessionData` (session_manager.hpp): the in-memory session record. -/
structure SessionData where
  token : String
  user_id : String
  client_ip : String
  user_agent : String
  issued_at : Int
  expires_at : Int
deriving DecidableEq, Repr

/-- The `SessionManager` state: the `sessions_` map (token -> SessionData),
modelled as an association list with unique keys. -/
abbrev SessionStore : Type := List (String × SessionData)

/-- From the source: `SessionManager::ValidateSession`: look the token up; if absent return
Unauthenticated; if `expires_at < now` erase the entry and return
Unauthenticated; otherwise return the session.  The wall clock
(`CurrentUnixSeconds`) is the `now` parameter; the unused client ip /
user agent arguments are omitted. -/
def validateSession (sessions : SessionStore) (token : String) (now : Int) :
    Except Status SessionData × SessionStore :=
  match sessions.lookup token with
  | none => (Except.error (Status.Unauthenticated "Invalid session token."), sessions)
  | some session =>
    if session.expires_at < now then
      (Except.error (Status.Unauthenticated "Session expired."),
        sessions.filter (fun p => p.1 ≠ token))
    else
      (Except.ok session, sessions)

/-- From the source: `SessionRecord` (session_repository.hpp shape used by the cached
repository): token, numeric user id, user uuid, unix expiry. -/
structure SessionRecord where
  token : String
  user_id : Nat
  user_uuid : String
  expires_at : Int
deriving DecidableEq, Repr

/-- Outcome of `CachedSessionRepository::CacheGet` after the Redis payload
has been fetched and parsed: the JSON layer is abstracted away and the
parsed record is the input.  If `expires_at ≠ 0` and `expires_at < now`,
the cache entry is deleted and Unauthenticated is returned; otherwise the
record is returned.  The Bool reports whether `CacheDelete` was issued. -/
def cacheGet (rec : SessionRecord) (now : Int) : Except Status SessionRecord × Bool :=
  if rec.expires_at ≠ 0 ∧ rec.expires_at < now then
    (Except.error (Status.Unauthenticated "Session expired"), true)
  else
    (Except.ok rec, false)

/-- Cache TTL computed by `CachedSessionRepository::CachePut`:
`expires_at > 0 ? expires_at - now : 0`; the record is cached only when
this is positive. -/
def cachePutTtl (rec : SessionRecord) (now : Int) : Int :=
  if 0 < rec.expires_at then rec.expires_at - now else 0

/-! ### Bounded MPMC queue (`bounded_circular_queue.hpp`)

`size_type` is 64-bit; `RoundUpToPow2` is modelled with the wrap-around of
the final increment made explicit (`% 2^64`), which is the only point in
the function where unsigned overflow can occur for inputs below `2^64`. -/

/-- One `n |= n >> i` smearing step of `RoundUpToPow2`. -/
def orShift (n i : Nat) : Nat := n ||| (n >>> i)

/-- From the source: `BoundedCircularQueue::RoundUpToPow2` for 64-bit `size_type`:
inputs below 2 map to 2; otherwise decrement, smear with shifts
1,2,4,8,16,32 (the loop `for i = 1; i < 64; i <<= 1`), and increment
modulo `2^64`. -/
def roundUpToPow2 (n : Nat) : Nat :=
  if n < 2 then 2
  else
    let m := n - 1
    let m := orShift m 1
    let m := orShift m 2
    let m := orShift m 4
    let m := orShift m 8
    let m := orShift m 16
    let m := orShift m 32
    (m + 1) % 2 ^ 64

/-- State of `BoundedCircularQueue<T>`: capacity (already adjusted),
per-cell sequence number and storage, and the producer/consumer tickets.
`mask_` is `capacity - 1`; cells are a function from index (only indices
below `capacity` are ever used).  Positions are unbounded Nat, which
coincides with the 64-bit counters while fewer than `2^63` operations have
run, making the `ptrdiff_t` difference exact. -/
structure CQ (α : Type) where
  capacity : Nat
  cells : Nat → Nat × Option α
  producerPos : Nat
  consumerPos : Nat

/-- The queue constructor: adjust the capacity with `RoundUpToPow2` and
initialise cell `i` with sequence `i` and empty storage. -/
def CQ.mk' (α : Type) (capacity : Nat) : CQ α :=
  { capacity := roundUpToPow2 capacity
    cells := fun i => (i, none)
    producerPos := 0
    consumerPos := 0 }

/-- Result tag of a push attempt (`DoPush`): success, queue full, the
in-place constructor threw, or the CAS/sequence told the producer to
retry (impossible single-threaded). -/
inductive PushTag
  | pushed
  | full
  | threw
  | spin
deriving DecidableEq, Repr

/-- Result tag of `TryPop`: an element was moved out, the queue was empty,
or the consumer must retry (impossible single-threaded). -/
inductive PopTag (α : Type)
  | popped (v : α)
  | empty
  | spin
deriving DecidableEq, Repr

/-- Functional cell update. -/
def CQ.setCell (q : CQ α) (i : Nat) (c : Nat × Option α) : Nat → Nat × Option α :=
  fun j => if j = i then c else q.cells j

/-- From the source: `BoundedCircularQueue::DoPush`, single-threaded (the winning CAS is
immediate).  The in-place construction is the `Except` argument: `ok v`
constructs `v`, `error` throws.  On a throw the code stores the old
sequence value back into the cell (`cell.seq_.store(pos)`) and re-throws —
note `producer_pos_` has already been advanced and is NOT restored. -/
def CQ.doPush (q : CQ α) (construct : Except Unit α) : PushTag × CQ α :=
  let pos := q.producerPos
  let idx := pos &&& (q.capacity - 1)
  let seq := (q.cells idx).1
  let diff : Int := (seq : Int) - (pos : Int)
  if diff = 0 then
    match construct with
    | Except.ok v =>
      (PushTag.pushed,
        { q with cells := q.setCell idx (pos + 1, some v), producerPos := pos + 1 })
    | Except.error _ =>
      (PushTag.threw,
        { q with cells := q.setCell idx (pos, (q.cells idx).2), producerPos := pos + 1 })
  else if diff < 0 then (PushTag.full, q)
  else (PushTag.spin, q)

/-- From the source: `BoundedCircularQueue::TryPop`, single-threaded.  On success the
element is moved out, the storage destroyed, and the cell sequence
advanced by `capacity` for the next round.  Reading a cell whose sequence
is consumable but whose storage is empty cannot happen under the sequence
discipline; it is mapped to the (unreachable) `spin` tag. -/
def CQ.tryPop (q : CQ α) : PopTag α × CQ α :=
  let pos := q.consumerPos
  let idx := pos &&& (q.capacity - 1)
  let seq := (q.cells idx).1
  let diff : Int := (seq : Int) - ((pos : Int) + 1)
  if diff = 0 then
    match (q.cells idx).2 with
    | some v =>
      (PopTag.popped v,
        { q with cells := q.setCell idx (pos + q.capacity, none), consumerPos := pos + 1 })
    | none => (PopTag.spin, q)
  else if diff < 0 then (PopTag.empty, q)
  else (PopTag.spin, q)

/-- From the source: `ApproxSize`: producer ticket minus consumer ticket. -/
def CQ.approxSize (q : CQ α) : Nat := q.producerPos - q.consumerPos

/-! ### Blocking queue adapter (`blocking_queue_adapter.hpp`) -/

/-- State of `BlockingQueueAdapter<T>`: the lock-free queue plus the
pending counter, the discard counter and the close flag. -/
structure BQ (α : Type) where
  q : CQ α
  pending : Nat
  discard : Nat
  closed : Bool

/-- A fresh adapter over a fresh queue. -/
def BQ.mk' (α : Type) (capacity : Nat) : BQ α :=
  { q := CQ.mk' α capacity, pending := 0, discard := 0, closed := false }

/-- From the source: `BlockingQueueAdapter::TryPush` (element construction does not throw
for the adapter claims): fail fast when closed; on a successful lock-free
push increment pending; on a full queue increment the discard counter.
`none` marks the single-threaded-impossible spin case. -/
def BQ.tryPush (b : BQ α) (v : α) : Option (Bool × BQ α) :=
  if b.closed then some (false, b)
  else
    match b.q.doPush (Except.ok v) with
    | (PushTag.pushed, q1) => some (true, { b with q := q1, pending := b.pending + 1 })
    | (PushTag.full, _) => some (false, { b with discard := b.discard + 1 })
    | _ => none

/-- From the source: `BlockingQueueAdapter::TryPop`: no closed check — pop straight off the
lock-free queue, decrementing pending on success. -/
def BQ.tryPop (b : BQ α) : Option (Option α × BQ α) :=
  match b.q.tryPop with
  | (PopTag.popped v, q1) => some (some v, { b with q := q1, pending := b.pending - 1 })
  | (PopTag.empty, _) => some (none, b)
  | (PopTag.spin, _) => none

/-- Result of `WaitPop` in the single-threaded model: an element, the
closed signal (`return false` after the queue is empty and closed), or the
call blocks on `not_empty_` (queue empty, not closed, and no concurrent
producers exist to wake it). -/
inductive WaitPopRes (α : Type)
  | got (v : α) (b : BQ α)
  | closedSig
  | blocks
  | spin
deriving Inhabited

/-- From the source: `BlockingQueueAdapter::WaitPop`: try the lock-free pop; if the queue is
empty return the closed signal when closed, otherwise wait. -/
def BQ.waitPop (b : BQ α) : WaitPopRes α :=
  match b.q.tryPop with
  | (PopTag.popped v, q1) => WaitPopRes.got v { b with q := q1, pending := b.pending - 1 }
  | (PopTag.empty, _) => if b.closed then WaitPopRes.closedSig else WaitPopRes.blocks
  | (PopTag.spin, _) => WaitPopRes.spin

/-- From the source: `BlockingQueueAdapter::Close`: set the close flag (and wake waiters). -/
def BQ.close (b : BQ α) : BQ α := { b with closed := true }

/-- From the source: `BlockingQueueAdapter::Size`: the pending counter. -/
def BQ.size (b : BQ α) : Nat := b.pending

/-! ### Worker pool (`thread_pool.cpp` / `thread_pool.hpp`)

The pool is concurrent; its counter discipline is embedded as an explicit
step protocol.  Each constructor of `PoolStep` is justified by a code path
of `Post` / `Submit` / `PostBatch` / `WorkerLoop` / the load balancer, and
`Stop(Graceful)` is modelled as: the CAS to SHUTTING_DOWN, an arbitrary
run of steps, the two condition-variable waits as hypotheses on the state
in which they returned, then closing the queue and storing STOPPED. -/

/-- From the source: `enum class PoolState`. -/
inductive PState
  | created
  | running
  | paused
  | shuttingDown
  | forceStopping
  | stopped
deriving DecidableEq, Repr

/-- Pool counter state: the queue is split into queued normal tasks and
queued directed exit tasks (`Pending()` is their sum), plus the active
task count, the in-flight submission count (`submit_ing_`) and the
statistics counters touched by the submission/execution paths. -/
structure PoolSt where
  state : PState
  closed : Bool
  pendingTasks : Nat
  pendingExits : Nat
  active : Nat
  inflight : Nat
  submitted : Nat
  completed : Nat
  failed : Nat
  cancelled : Nat
  rejected : Nat
deriving DecidableEq, Repr

/-- From the source: `Pending()` — the blocking queue's size. -/
def PoolSt.pending (s : PoolSt) : Nat := s.pendingTasks + s.pendingExits

/-- A freshly constructed pool. -/
def PoolSt.init : PoolSt :=
  { state := PState.created, closed := false, pendingTasks := 0, pendingExits := 0
    active := 0, inflight := 0, submitted := 0, completed := 0, failed := 0
    cancelled := 0, rejected := 0 }

/-- One observable step of the pool protocol outside Stop(Force).  Each
constructor cites the code path it abstracts.  The Bool index is `true`
exactly on the two steps in which an overwrite-push displaces a queued
directed ExitTask. -/
inductive PoolStep : Bool → PoolSt → PoolSt → Prop
  /-- From the source: `Start()`: CAS CREATED → RUNNING. -/
  | start (s : PoolSt) :
      s.state = PState.created →
      PoolStep false s { s with state := PState.running }
  /-- From the source: `Pause()`: CAS RUNNING → PAUSED. -/
  | pause (s : PoolSt) :
      s.state = PState.running →
      PoolStep false s { s with state := PState.paused }
  /-- From the source: `Resume()`: CAS PAUSED → RUNNING. -/
  | resume (s : PoolSt) :
      s.state = PState.paused →
      PoolStep false s { s with state := PState.running }
  /-- From the source: `Post` success: state RUNNING, queue open, push succeeded —
  `total_submitted_++`. -/
  | postOk (s : PoolSt) :
      s.state = PState.running → s.closed = false →
      PoolStep false s { s with pendingTasks := s.pendingTasks + 1, submitted := s.submitted + 1 }
  /-- From the source: `Post` rejection (state not RUNNING/PAUSED, or the push failed):
  `RecordTaskRejected()`. -/
  | postReject (s : PoolSt) :
      PoolStep false s { s with rejected := s.rejected + 1 }
  /-- From the source: `Post`, Overwrite policy, displacing a queued normal task: the
  displaced task is cancelled (`RecordTaskCancel`) and the new one
  submitted; the queue size is unchanged. -/
  | postOverwrite (s : PoolSt) :
      s.state = PState.running → s.closed = false → 0 < s.pendingTasks →
      PoolStep false s { s with cancelled := s.cancelled + 1, submitted := s.submitted + 1 }
  /-- From the source: `Post`, Overwrite policy, displacing a queued directed ExitTask:
  `RecordTaskCancel()` fires for a task that was never counted in
  `total_submitted_`, and the new task joins the queue. -/
  | postOverwriteExit (s : PoolSt) :
      s.state = PState.running → s.closed = false → 0 < s.pendingExits →
      PoolStep true s { s with cancelled := s.cancelled + 1, submitted := s.submitted + 1, pendingTasks := s.pendingTasks + 1, pendingExits := s.pendingExits - 1 }
  /-- From the source: `Submit` entry: the RAII `SubmitHelper` constructor runs
  `SubmitOn()` in every state. -/
  | submitStart (s : PoolSt) :
      PoolStep false s { s with inflight := s.inflight + 1 }
  /-- From the source: `Submit` success exit: the push succeeded (state RUNNING, or
  SHUTTING_DOWN reached through a pause wait); `total_submitted_++` and
  the helper destructor runs `SubmitOff()`. -/
  | submitOk (s : PoolSt) :
      s.state = PState.running ∨ s.state = PState.shuttingDown →
      s.closed = false → 0 < s.inflight →
      PoolStep false s { s with pendingTasks := s.pendingTasks + 1, submitted := s.submitted + 1, inflight := s.inflight - 1 }
  /-- From the source: `Submit` rejection exit (bad state throw, closed queue, or discard):
  `RecordTaskRejected()` then `SubmitOff()`. -/
  | submitReject (s : PoolSt) :
      0 < s.inflight →
      PoolStep false s { s with rejected := s.rejected + 1, inflight := s.inflight - 1 }
  /-- From the source: `Submit`, Overwrite policy, displacing a queued normal task. -/
  | submitOverwrite (s : PoolSt) :
      s.state = PState.running ∨ s.state = PState.shuttingDown →
      s.closed = false → 0 < s.pendingTasks → 0 < s.inflight →
      PoolStep false s { s with cancelled := s.cancelled + 1, submitted := s.submitted + 1, inflight := s.inflight - 1 }
  /-- From the source: `Submit`, Overwrite policy, displacing a queued directed ExitTask. -/
  | submitOverwriteExit (s : PoolSt) :
      s.state = PState.running ∨ s.state = PState.shuttingDown →
      s.closed = false → 0 < s.pendingExits → 0 < s.inflight →
      PoolStep true s { s with cancelled := s.cancelled + 1, submitted := s.submitted + 1, pendingTasks := s.pendingTasks + 1, pendingExits := s.pendingExits - 1, inflight := s.inflight - 1 }
  /-- From the source: `PostBatch`: state RUNNING; `TryPushBatch` accepted `n` tasks and
  `total_submitted_ += n`. -/
  | postBatch (s : PoolSt) (n : Nat) :
      s.state = PState.running → s.closed = false →
      PoolStep false s { s with pendingTasks := s.pendingTasks + n, submitted := s.submitted + n }
  /-- Worker loop: a normal task is popped and `TaskOn` runs. -/
  | taskStart (s : PoolSt) :
      0 < s.pendingTasks →
      PoolStep false s { s with pendingTasks := s.pendingTasks - 1, active := s.active + 1 }
  /-- Worker loop: task execution ended with `Success()`;
  `RecordTaskComplete` increments `total_completed_` and `TaskOff` runs. -/
  | taskDone (s : PoolSt) :
      0 < s.active →
      PoolStep false s { s with active := s.active - 1, completed := s.completed + 1 }
  /-- Worker loop: task execution ended without success (exception or a
  failed result); `RecordTaskComplete` increments `total_failed_`. -/
  | taskFail (s : PoolSt) :
      0 < s.active →
      PoolStep false s { s with active := s.active - 1, failed := s.failed + 1 }
  /-- Load balancer scale-down: `EnqueueExitSignals` pushes a directed
  ExitTask (not counted in `total_submitted_`). -/
  | exitEnqueue (s : PoolSt) :
      s.closed = false →
      PoolStep false s { s with pendingExits := s.pendingExits + 1 }
  /-- Worker loop: a directed ExitTask addressed to this worker is popped
  and the worker exits (forwarding to another worker re-queues and is a
  net no-op). -/
  | exitConsume (s : PoolSt) :
      0 < s.pendingExits →
      PoolStep false s { s with pendingExits := s.pendingExits - 1 }

/-- Reflexive-transitive closure of the pool protocol (all steps). -/
inductive PoolSteps : PoolSt → PoolSt → Prop
  | refl (s : PoolSt) : PoolSteps s s
  | tail (s t u : PoolSt) (b : Bool) : PoolSteps s t → PoolStep b t u → PoolSteps s u

/-- Reachability from the freshly constructed pool. -/
def PoolReach (s : PoolSt) : Prop := PoolSteps PoolSt.init s

/-- Runs in which no overwrite-push ever displaced a directed ExitTask. -/
inductive PoolStepsSafe : PoolSt → PoolSt → Prop
  | refl (s : PoolSt) : PoolStepsSafe s s
  | tail (s t u : PoolSt) (hs : PoolStepsSafe s t) (h : PoolStep false t u) :
      PoolStepsSafe s u

/-- Safe reachability from the freshly constructed pool. -/
def PoolReachSafe (s : PoolSt) : Prop := PoolStepsSafe PoolSt.init s

/-- The tail end of `Stop(Graceful)` once the drain waits have returned:
`queue_.Close()`, then (after joining workers) `state_.store(STOPPED)`. -/
def gracefulFinish (s : PoolSt) : PoolSt :=
  { s with closed := true, state := PState.stopped }

/-! ### Submission entry points: in-flight counter events (`Post`,
`Submit`, `PostBatch`) -/

/-- From the source: `QueueFullPolicy`. -/
inductive QueueFullPolicy
  | block
  | discard
  | overwrite
deriving DecidableEq, Repr

/-- Counter events emitted by one submission call, in program order:
`subOn`/`subOff` are `SubmitOn()`/`SubmitOff()` on the in-flight counter
`submit_ing_`; the rest are the statistics counters. -/
inductive SubmitEv
  | subOn
  | subOff
  | evSubmitted
  | evRejected
  | evCancelled
  | evDiscarded
deriving DecidableEq, Repr

/-- Event trace of `ThreadPool::Post(f)`.  `s` is the pool state as
resolved by the fast state check (a PAUSED pool blocks the caller until
the state changes, so `s ≠ PAUSED`; the blocked case is `none`).
`pushOk` tells whether the queue accepted the task and `displaced`
whether an overwrite-push returned a displaced task. -/
def postEvents (s : PState) (policy : QueueFullPolicy) (pushOk displaced : Bool) :
    Option (List SubmitEv) :=
  if s = PState.paused then none
  else if s ≠ PState.running then some [SubmitEv.evRejected]
  else
    some <|
      (match policy with
       | QueueFullPolicy.block => []
       | QueueFullPolicy.discard => if pushOk then [] else [SubmitEv.evDiscarded]
       | QueueFullPolicy.overwrite =>
         (if displaced then [SubmitEv.evCancelled] else []) ++
           (if pushOk then [] else [SubmitEv.evDiscarded])) ++
      (if pushOk then [SubmitEv.evSubmitted] else [SubmitEv.evRejected])

/-- Event trace of `ThreadPool::Submit(f)` from the construction of the
RAII `SubmitHelper` on.  `s` is the state as resolved by the state loop
(`s ≠ PAUSED`; a PAUSED pool blocks, which is `none`); `waitedInPause`
records whether the caller went through a pause wait. -/
def submitEvents (s : PState) (waitedInPause : Bool) (policy : QueueFullPolicy)
    (pushOk displaced : Bool) : Option (List SubmitEv) :=
  if s = PState.paused then none
  else
    some <| SubmitEv.subOn ::
      ((if s = PState.running ∨ (waitedInPause ∧ s = PState.shuttingDown) then
          match policy with
          | QueueFullPolicy.block =>
            if pushOk then [SubmitEv.evSubmitted]
            else [SubmitEv.evRejected]
          | QueueFullPolicy.discard =>
            if pushOk then [SubmitEv.evSubmitted]
            else [SubmitEv.evRejected, SubmitEv.evDiscarded]
          | QueueFullPolicy.overwrite =>
            (if displaced then [SubmitEv.evCancelled] else []) ++
              (if pushOk then [SubmitEv.evSubmitted]
               else [SubmitEv.evRejected, SubmitEv.evDiscarded])
        else if waitedInPause ∧ s = PState.forceStopping then
          [SubmitEv.evCancelled]
        else
          [SubmitEv.evRejected]) ++
        [SubmitEv.subOff])

/-- Event trace of `ThreadPool::PostBatch` (both overloads): if the state
is not RUNNING, return 0 with no events; otherwise `TryPushBatch` accepts
`accepted` tasks and `total_submitted_` grows by that amount.  No
in-flight counter events are emitted. -/
def postBatchEvents (s : PState) (accepted : Nat) : List SubmitEv :=
  if s = PState.running then List.replicate accepted SubmitEv.evSubmitted
  else []

/-! ### Association-list map lemmas -/

theorem lookup_repoSet_self (r : MeetingRepo) (k : String) (f : MeetingData → MeetingData) :
    (repoSet r k f).lookup k = (r.lookup k).map f := by
  induction r with
  | nil => rfl
  | cons hd tl ih =>
    obtain ⟨a, b⟩ := hd
    show List.lookup k ((if a = k then (a, f b) else (a, b)) :: repoSet tl k f) = _
    by_cases h : a = k
    · subst h
      rw [if_pos rfl]
      simp [List.lookup_cons]
    · rw [if_neg h]
      have hne : (k == a) = false := beq_eq_false_iff_ne.mpr (Ne.symm h)
      simp [List.lookup_cons, hne, ih]

theorem lookup_repoSet_ne (r : MeetingRepo) (k k' : String) (f : MeetingData → MeetingData)
    (h : k' ≠ k) : (repoSet r k f).lookup k' = r.lookup k' := by
  induction r with
  | nil => rfl
  | cons hd tl ih =>
    obtain ⟨a, b⟩ := hd
    show List.lookup k' ((if a = k then (a, f b) else (a, b)) :: repoSet tl k f) = _
    by_cases ha : a = k
    · subst ha
      rw [if_pos rfl]
      have hne : (k' == a) = false := beq_eq_false_iff_ne.mpr h
      simp [List.lookup_cons, hne, ih]
    · rw [if_neg ha]
      by_cases hk' : k' = a
      · subst hk'
        simp [List.lookup_cons]
      · have hne : (k' == a) = false := beq_eq_false_iff_ne.mpr hk'
        simp [List.lookup_cons, hne, ih]

/-! ### Claim C6 — LeaveMeeting on an absent participant -/

/-- Fixture: a meeting whose only participant is the organizer `1`. -/
def c6Meeting : MeetingData :=
  { meeting_id := "m-1", meeting_code := "CODE", organizer_id := 1, topic := "t"
    state := MeetingState.kScheduled, participants := [1], created_at := 0, updated_at := 0 }

/-- Fixture repository for the LeaveMeeting claim. -/
def c6Repo : MeetingRepo := [("m-1", c6Meeting)]

/-- C6: The claim says LeaveMeeting on an existing meeting whose
participants list does not contain the leaver fails with NotFound.  The
code instead returns `Status::AlreadyExists` — with the message
"Participant not found in the meeting." — so the error *code* is
kAlreadyExists (6), not kNotFound (5); the repository is unchanged and no
write is issued.  Evaluation of the embedded code at the failing input. -/
theorem leaveMeeting_absent_returns_alreadyExists_eval :
    (leaveMeeting {} c6Repo ⟨"m-1", 2⟩ 50).1 =
        Status.AlreadyExists "Participant not found in the meeting." ∧
      (leaveMeeting {} c6Repo ⟨"m-1", 2⟩ 50).1.code ≠ StatusCode.kNotFound ∧
      (leaveMeeting {} c6Repo ⟨"m-1", 2⟩ 50).2.1 = c6Repo ∧
      (leaveMeeting {} c6Repo ⟨"m-1", 2⟩ 50).2.2 = [] := by
  refine ⟨rfl, by decide, rfl, rfl⟩

/-! ### Claim C5 — EndMeeting check order -/

/-- C5 (amended): on an existing meeting, with a non-empty meeting id and a
nonzero requester distinct from the organizer, EndMeeting returns
InvalidArgument when the meeting is already Ended (the already-ended check
precedes the organizer check) and Unauthenticated otherwise; in both cases
the repository is unchanged and no write is issued. -/
theorem endMeeting_nonorganizer (r : MeetingRepo) (mid : String) (req : Nat)
    (m : MeetingData) (now : Int)
    (hmid : mid ≠ "") (hreq : req ≠ 0) (hget : r.lookup mid = some m)
    (horg : req ≠ m.organizer_id) :
    (endMeeting r ⟨mid, req⟩ now).1 =
        (if m.state = MeetingState.kEnded then
          Status.InvalidArgument "Meeting has already ended."
        else
          Status.Unauthenticated "Only the organizer can end the meeting.") ∧
      (endMeeting r ⟨mid, req⟩ now).2.1 = r ∧
      (endMeeting r ⟨mid, req⟩ now).2.2 = [] := by
  simp only [endMeeting, repoGetMeeting, hget, if_neg hmid, if_neg hreq]
  by_cases hend : m.state = MeetingState.kEnded
  · simp [hend]
  · simp [hend, horg]

/-- Witness for `endMeeting_nonorganizer` at a concrete input. -/
theorem endMeeting_nonorganizer_witness :
    ("m-1" : String) ≠ "" ∧ (2 : Nat) ≠ 0 ∧ c6Repo.lookup "m-1" = some c6Meeting ∧
      (2 : Nat) ≠ c6Meeting.organizer_id ∧
      ((endMeeting c6Repo ⟨"m-1", 2⟩ 5).1 =
          (if c6Meeting.state = MeetingState.kEnded then
            Status.InvalidArgument "Meeting has already ended."
          else
            Status.Unauthenticated "Only the organizer can end the meeting.") ∧
        (endMeeting c6Repo ⟨"m-1", 2⟩ 5).2.1 = c6Repo ∧
        (endMeeting c6Repo ⟨"m-1", 2⟩ 5).2.2 = []) :=
  ⟨by decide, by decide, by decide, by decide,
    endMeeting_nonorganizer c6Repo "m-1" 2 c6Meeting 5 (by decide) (by decide)
      (by decide) (by decide)⟩

/-- Fixture: an already-Ended meeting organized by `1`. -/
def c5Meeting : MeetingData :=
  { meeting_id := "m-2", meeting_code := "CODE2", organizer_id := 1, topic := "t"
    state := MeetingState.kEnded, participants := [1], created_at := 0, updated_at := 0 }

/-- Fixture repository for the EndMeeting counterexample. -/
def c5Repo : MeetingRepo := [("m-2", c5Meeting)]

/-- C5 counterexample: the claim says EndMeeting by a non-organizer fails
with Unauthenticated *including when the meeting is already Ended*.  On
the Ended meeting `m-2` (organizer 1) a request by user 2 returns
InvalidArgument, not Unauthenticated: the already-ended check runs first. -/
theorem endMeeting_ended_nonorganizer_counterexample :
    (endMeeting c5Repo ⟨"m-2", 2⟩ 5).1.code = StatusCode.kInvalidArgument ∧
      (endMeeting c5Repo ⟨"m-2", 2⟩ 5).1.code ≠ StatusCode.kUnauthenticated := by
  decide

/-! ### Claim C3 — JoinMeeting contract -/

/-- C3: on an existing meeting (non-empty id, nonzero joiner): Ended ⇒
InvalidArgument; joiner present ⇒ AlreadyExists; full ⇒ Unavailable; in
each rejection the repository is untouched and no write is issued.
Otherwise the join succeeds, the issued writes are exactly the membership
write followed — when and only when the prior state was Scheduled and the
joiner is not the organizer — by the Scheduled→Running state write, and
the stored meeting ends with the joiner appended and that state. -/
theorem joinMeeting_contract (config : MeetingConfig) (r : MeetingRepo) (mid : String)
    (pid : Nat) (m : MeetingData) (now : Int)
    (hmid : mid ≠ "") (hpid : pid ≠ 0) (hget : r.lookup mid = some m)
    (hkey : m.meeting_id = mid) :
    (m.state = MeetingState.kEnded →
      (joinMeeting config r ⟨mid, pid⟩ now).1 =
          Except.error (Status.InvalidArgument "Cannot join a meeting that has ended.") ∧
        (joinMeeting config r ⟨mid, pid⟩ now).2.1 = r ∧
        (joinMeeting config r ⟨mid, pid⟩ now).2.2 = []) ∧
    (m.state ≠ MeetingState.kEnded → pid ∈ m.participants →
      (joinMeeting config r ⟨mid, pid⟩ now).1 =
          Except.error (Status.AlreadyExists "Participant already in the meeting.") ∧
        (joinMeeting config r ⟨mid, pid⟩ now).2.1 = r ∧
        (joinMeeting config r ⟨mid, pid⟩ now).2.2 = []) ∧
    (m.state ≠ MeetingState.kEnded → pid ∉ m.participants →
      config.max_participants ≤ m.participants.length →
      (joinMeeting config r ⟨mid, pid⟩ now).1 =
          Except.error (Status.Unavailable "Meeting has reached maximum participant limit.") ∧
        (joinMeeting config r ⟨mid, pid⟩ now).2.1 = r ∧
        (joinMeeting config r ⟨mid, pid⟩ now).2.2 = []) ∧
    (m.state ≠ MeetingState.kEnded → pid ∉ m.participants →
      m.participants.length < config.max_participants →
      (∃ m2, (joinMeeting config r ⟨mid, pid⟩ now).1 = Except.ok m2) ∧
        (joinMeeting config r ⟨mid, pid⟩ now).2.2 =
          RepoWrite.wAdd mid pid ::
            (if m.state = MeetingState.kScheduled ∧ pid ≠ m.organizer_id then
              [RepoWrite.wUpdateState mid MeetingState.kRunning now]
            else []) ∧
        ((joinMeeting config r ⟨mid, pid⟩ now).2.1.lookup mid).map
            (fun d => (d.state, d.participants)) =
          some
            ((if m.state = MeetingState.kScheduled ∧ pid ≠ m.organizer_id then
                MeetingState.kRunning
              else m.state),
              m.participants ++ [pid])) := by
  subst hkey
  refine ⟨?_, ?_, ?_, ?_⟩
  · intro hend
    simp [joinMeeting, repoGetMeeting, hget, hmid, hpid, hend]
  · intro hend hmem
    simp [joinMeeting, repoGetMeeting, hget, hmid, hpid, hend, hmem]
  · intro hend hmem hfull
    simp [joinMeeting, repoGetMeeting, hget, hmid, hpid, hend, hmem, hfull]
  · intro hend hmem hroom
    by_cases htr : m.state = MeetingState.kScheduled ∧ pid ≠ m.organizer_id
    · simp only [if_pos htr]
      simp only [joinMeeting, repoGetMeeting, repoAddParticipant, repoUpdateMeetingState,
        hget, if_neg hmid, if_neg hpid, if_neg hend, if_neg hmem,
        if_neg (Nat.not_le.mpr hroom), if_pos htr, lookup_repoSet_self,
        Status.IsOk, Status.OK]
      simp [Option.map_some, lookup_repoSet_self, hget]
    · simp only [if_neg htr]
      simp only [joinMeeting, repoGetMeeting, repoAddParticipant, repoUpdateMeetingState,
        hget, if_neg hmid, if_neg hpid, if_neg hend, if_neg hmem,
        if_neg (Nat.not_le.mpr hroom), if_neg htr, lookup_repoSet_self,
        Status.IsOk, Status.OK]
      simp [Option.map_some, lookup_repoSet_self, hget]

/-- Witness for `joinMeeting_contract`: meeting `m-1` (organizer 1, sole
participant) joined by user 2 transitions Scheduled→Running after the
membership write. -/
theorem joinMeeting_contract_witness :
    ("m-1" : String) ≠ "" ∧ (2 : Nat) ≠ 0 ∧ c6Repo.lookup "m-1" = some c6Meeting ∧
      ((joinMeeting {} c6Repo ⟨"m-1", 2⟩ 9).2.2 =
          [RepoWrite.wAdd "m-1" 2, RepoWrite.wUpdateState "m-1" MeetingState.kRunning 9] ∧
        ((joinMeeting {} c6Repo ⟨"m-1", 2⟩ 9).2.1.lookup "m-1").map
            (fun d => (d.state, d.participants)) = some (MeetingState.kRunning, [1, 2])) := by
  have h := joinMeeting_contract {} c6Repo "m-1" 2 c6Meeting 9 (by decide) (by decide)
    (by decide) (by decide)
  have h4 := h.2.2.2 (by decide) (by decide) (by decide)
  refine ⟨by decide, by decide, by decide, ?_, ?_⟩
  · have := h4.2.1
    simpa using this
  · have := h4.2.2
    simpa using this

/-! ### Claim C7 — session expiry boundary -/

theorem lookup_filter_ne_key (l : SessionStore) (token : String) :
    (l.filter (fun p => p.1 ≠ token)).lookup token = none := by
  induction l with
  | nil => rfl
  | cons hd tl ih =>
    obtain ⟨a, b⟩ := hd
    by_cases h : a = token
    · simp [List.filter_cons, h, ih]
      exact fun a b _ hab hh => hab hh.symm
    · have hne : (token == a) = false := beq_eq_false_iff_ne.mpr (Ne.symm h)
      simp [List.filter_cons, h, List.lookup_cons, hne, ih]
      exact fun a b _ hab hh => hab hh.symm

/-- C7 (amended): the stored-session expiry check is `expires_at < now`,
so ValidateSession returns the session exactly when it is present and
`expires_at ≥ now` (a session whose expiry equals the validation time is
still returned); when `expires_at < now` it returns Unauthenticated and
erases the entry.  Likewise the cache-side check (`CacheGet`) deletes the
cache entry and returns Unauthenticated exactly when the cached
`expires_at` is nonzero and `< now`. -/
theorem validateSession_expiry_boundary (sessions : SessionStore) (token : String)
    (s : SessionData) (rec : SessionRecord) (now : Int)
    (hget : sessions.lookup token = some s) :
    (s.expires_at < now →
      (validateSession sessions token now).1 =
          Except.error (Status.Unauthenticated "Session expired.") ∧
        (validateSession sessions token now).2.lookup token = none) ∧
    (now ≤ s.expires_at →
      (validateSession sessions token now).1 = Except.ok s ∧
        (validateSession sessions token now).2 = sessions) ∧
    (rec.expires_at ≠ 0 → rec.expires_at < now →
      cacheGet rec now = (Except.error (Status.Unauthenticated "Session expired"), true)) ∧
    (¬(rec.expires_at ≠ 0 ∧ rec.expires_at < now) →
      cacheGet rec now = (Except.ok rec, false)) := by
  refine ⟨?_, ?_, ?_, ?_⟩
  · intro hlt
    simp only [validateSession, hget, if_pos hlt]
    exact ⟨trivial, lookup_filter_ne_key sessions token⟩
  · intro hge
    simp [validateSession, hget, Int.not_lt.mpr hge]
  · intro hne hlt
    simp [cacheGet, hne, hlt]
  · intro hcond
    simp [cacheGet, hcond]

/-- Fixture session expiring exactly at time 100. -/
def c7Session : SessionData :=
  { token := "tok", user_id := "u-1", client_ip := "ip", user_agent := "ua"
    issued_at := 40, expires_at := 100 }

/-- Fixture session store. -/
def c7Store : SessionStore := [("tok", c7Session)]

/-- C7 counterexample: the claim says a session is returned only if
`expires_at > now` and otherwise ("expiry not in the future") the entry is
deleted with Unauthenticated.  At `now = 100` the stored session with
`expires_at = 100` is returned — the code's test is `expires_at < now` —
and nothing is deleted; the cache-side check behaves the same way. -/
theorem validateSession_at_exact_expiry_counterexample :
    (validateSession c7Store "tok" 100).1 = Except.ok c7Session ∧
      c7Session.expires_at = 100 ∧
      (validateSession c7Store "tok" 100).2 = c7Store ∧
      cacheGet ⟨"tok", 1, "u-1", 100⟩ 100 = (Except.ok ⟨"tok", 1, "u-1", 100⟩, false) := by
  refine ⟨rfl, rfl, rfl, rfl⟩

/-- Witness for `validateSession_expiry_boundary` at a concrete input. -/
theorem validateSession_expiry_boundary_witness :
    c7Store.lookup "tok" = some c7Session ∧
      (c7Session.expires_at < 101 →
        (validateSession c7Store "tok" 101).1 =
            Except.error (Status.Unauthenticated "Session expired.") ∧
          (validateSession c7Store "tok" 101).2.lookup "tok" = none) :=
  ⟨by decide,
    (validateSession_expiry_boundary c7Store "tok" c7Session ⟨"tok", 1, "u-1", 100⟩ 101
      (by decide)).1⟩

/-! ### Claim C2 — in-flight submission counter -/

/-- C2 counterexample: a successful fire-and-forget `Post` on a RUNNING
pool with the Block policy emits only the submitted-counter update — it
never calls `SubmitOn`/`SubmitOff`, so the claim that every submission
entry point increments and decrements the in-flight counter is false. -/
theorem post_no_inflight_counter_counterexample :
    postEvents PState.running QueueFullPolicy.block true false =
        some [SubmitEv.evSubmitted] ∧
      SubmitEv.subOn ∉ [SubmitEv.evSubmitted] ∧
      SubmitEv.subOff ∉ [SubmitEv.evSubmitted] := by
  decide

/-- C2 (amended): only `Submit` maintains the in-flight submissions
counter: its RAII helper emits exactly one `SubmitOn` first and exactly
one `SubmitOff` last on every exit path (success, rejection, throw,
force-stop cancellation), while `Post` and `PostBatch` never touch the
counter on any path. -/
theorem submission_inflight_discipline :
    (∀ (s : PState) (w : Bool) (pol : QueueFullPolicy) (pushOk displaced : Bool)
        (evs : List SubmitEv),
      submitEvents s w pol pushOk displaced = some evs →
      evs.head? = some SubmitEv.subOn ∧ evs.getLast? = some SubmitEv.subOff ∧
        evs.count SubmitEv.subOn = 1 ∧ evs.count SubmitEv.subOff = 1) ∧
    (∀ (s : PState) (pol : QueueFullPolicy) (pushOk displaced : Bool)
        (evs : List SubmitEv),
      postEvents s pol pushOk displaced = some evs →
      SubmitEv.subOn ∉ evs ∧ SubmitEv.subOff ∉ evs) ∧
    (∀ (s : PState) (n : Nat),
      SubmitEv.subOn ∉ postBatchEvents s n ∧ SubmitEv.subOff ∉ postBatchEvents s n) := by
  refine ⟨?_, ?_, ?_⟩
  · intro s w pol pushOk displaced evs h
    cases s <;> cases w <;> cases pol <;> cases pushOk <;> cases displaced <;>
      simp only [submitEvents, reduceIte] at h <;>
      first
        | exact Option.noConfusion h
        | (cases h; decide)
  · intro s pol pushOk displaced evs h
    cases s <;> cases pol <;> cases pushOk <;> cases displaced <;>
      simp only [postEvents, reduceIte] at h <;>
      first
        | exact Option.noConfusion h
        | (cases h; decide)
  · intro s n
    cases s <;> simp [postBatchEvents, List.mem_replicate]

/-- Witness for `submission_inflight_discipline`: the Submit part at the
successful Block-policy path. -/
theorem submission_inflight_discipline_witness :
    submitEvents PState.running false QueueFullPolicy.block true false =
        some [SubmitEv.subOn, SubmitEv.evSubmitted, SubmitEv.subOff] ∧
      ([SubmitEv.subOn, SubmitEv.evSubmitted, SubmitEv.subOff].head? =
          some SubmitEv.subOn ∧
        [SubmitEv.subOn, SubmitEv.evSubmitted, SubmitEv.subOff].getLast? =
          some SubmitEv.subOff ∧
        [SubmitEv.subOn, SubmitEv.evSubmitted, SubmitEv.subOff].count SubmitEv.subOn = 1 ∧
        [SubmitEv.subOn, SubmitEv.evSubmitted, SubmitEv.subOff].count SubmitEv.subOff = 1) :=
  ⟨by decide,
    submission_inflight_discipline.1 PState.running false QueueFullPolicy.block true false
      [SubmitEv.subOn, SubmitEv.evSubmitted, SubmitEv.subOff] (by decide)⟩

/-! ### Claim C1 — graceful shutdown counter balance -/

/-- Counter balance of the pool protocol: every successfully submitted
task is queued, active, or accounted as completed/failed/cancelled. -/
def PoolInv (s : PoolSt) : Prop :=
  s.submitted = s.completed + s.failed + s.cancelled + s.pendingTasks + s.active

theorem poolInv_init : PoolInv PoolSt.init := by
  simp [PoolInv, PoolSt.init]

theorem poolInv_step {s t : PoolSt} (h : PoolStep false s t) (hinv : PoolInv s) :
    PoolInv t := by
  cases h <;> simp_all [PoolInv] <;> omega

theorem poolInv_stepsSafe {s t : PoolSt} (h : PoolStepsSafe s t) (hinv : PoolInv s) :
    PoolInv t := by
  induction h with
  | refl => exact hinv
  | tail _ _ _ hstep ih => exact poolInv_step hstep ih

/-- C1 (amended): starting `Stop(Graceful)` from Running or Paused, in any
run in which no overwrite-push displaced a directed ExitTask, once the
drain wait observes `pending == 0 && active == 0` the finished stop has
pending 0, active 0, the queue closed, state Stopped, and
`total_submitted = total_completed + total_failed + total_cancelled`. -/
theorem stopGraceful_balances (s0 s2 : PoolSt)
    (h0 : PoolReachSafe s0)
    (_hfrom : s0.state = PState.running ∨ s0.state = PState.paused)
    (hsteps : PoolStepsSafe { s0 with state := PState.shuttingDown } s2)
    (hpend : s2.pending = 0) (hact : s2.active = 0) :
    (gracefulFinish s2).pending = 0 ∧ (gracefulFinish s2).active = 0 ∧
      (gracefulFinish s2).closed = true ∧
      (gracefulFinish s2).state = PState.stopped ∧
      (gracefulFinish s2).submitted =
        (gracefulFinish s2).completed + (gracefulFinish s2).failed +
          (gracefulFinish s2).cancelled := by
  have hinv0 : PoolInv s0 := poolInv_stepsSafe h0 poolInv_init
  have hinv1 : PoolInv { s0 with state := PState.shuttingDown } := hinv0
  have hinv2 : PoolInv s2 := poolInv_stepsSafe hsteps hinv1
  have hpt : s2.pendingTasks = 0 := by
    have := hpend
    simp [PoolSt.pending] at this
    omega
  refine ⟨?_, ?_, rfl, rfl, ?_⟩
  · simpa [gracefulFinish, PoolSt.pending] using hpend
  · simpa [gracefulFinish] using hact
  · simp only [gracefulFinish]
    simp only [PoolInv] at hinv2
    omega

/-- The freshly started pool, and the same pool after the graceful-stop
CAS to SHUTTING_DOWN (used by the witness below). -/
def c1Started : PoolSt := { PoolSt.init with state := PState.running }

def c1ShuttingDown : PoolSt := { c1Started with state := PState.shuttingDown }

/-- Witness for `stopGraceful_balances`: the empty run on a freshly
started pool. -/
theorem stopGraceful_balances_witness :
    PoolReachSafe c1Started ∧ c1Started.state = PState.running ∧
      ((gracefulFinish c1ShuttingDown).state = PState.stopped ∧
        (gracefulFinish c1ShuttingDown).submitted =
          (gracefulFinish c1ShuttingDown).completed +
            (gracefulFinish c1ShuttingDown).failed +
            (gracefulFinish c1ShuttingDown).cancelled) := by
  have hreach : PoolReachSafe c1Started :=
    PoolStepsSafe.tail _ _ _ (PoolStepsSafe.refl _) (PoolStep.start PoolSt.init rfl)
  have h := stopGraceful_balances c1Started c1ShuttingDown hreach (Or.inl rfl)
    (PoolStepsSafe.refl _) rfl rfl
  exact ⟨hreach, rfl, h.2.2.2.1, h.2.2.2.2⟩

/-- Intermediate states of the C1 counterexample run (Overwrite policy):
start; the load balancer enqueues a directed ExitTask; a Post fills the
queue; a second Post displaces the ExitTask (cancelling it). -/
def c1AfterStart : PoolSt := { PoolSt.init with state := PState.running }

def c1AfterExit : PoolSt := { c1AfterStart with pendingExits := 1 }

def c1AfterPost : PoolSt :=
  { c1AfterExit with pendingTasks := 1, submitted := 1 }

def c1AfterDisplace : PoolSt :=
  { state := PState.running, closed := false, pendingTasks := 2, pendingExits := 0
    active := 0, inflight := 0, submitted := 2, completed := 0, failed := 0
    cancelled := 1, rejected := 0 }

/-- The same run after Stop(Graceful) transitions to SHUTTING_DOWN and the
two queued tasks are executed to completion. -/
def c1Drained : PoolSt :=
  { c1AfterDisplace with state := PState.shuttingDown, pendingTasks := 0, completed := 2 }

theorem c1_reach_afterDisplace : PoolReach c1AfterDisplace := by
  have h1 : PoolSteps PoolSt.init c1AfterStart :=
    PoolSteps.tail _ _ _ false (PoolSteps.refl _) (PoolStep.start PoolSt.init rfl)
  have h2 : PoolSteps PoolSt.init c1AfterExit :=
    PoolSteps.tail _ _ _ false h1 (PoolStep.exitEnqueue c1AfterStart rfl)
  have h3 : PoolSteps PoolSt.init c1AfterPost :=
    PoolSteps.tail _ _ _ false h2 (PoolStep.postOk c1AfterExit rfl rfl)
  exact PoolSteps.tail _ _ _ true h3
    (PoolStep.postOverwriteExit c1AfterPost rfl rfl (by decide))

/-- Intermediate drain states of the counterexample run. -/
def c1Dr0 : PoolSt := { c1AfterDisplace with state := PState.shuttingDown }

def c1Dr1 : PoolSt := { c1Dr0 with pendingTasks := 1, active := 1 }

def c1Dr2 : PoolSt := { c1Dr0 with pendingTasks := 1, active := 0, completed := 1 }

def c1Dr3 : PoolSt := { c1Dr0 with pendingTasks := 0, active := 1, completed := 1 }

theorem c1_drain_steps : PoolSteps c1Dr0 c1Drained := by
  have h1 : PoolSteps c1Dr0 c1Dr1 :=
    PoolSteps.tail _ _ _ false (PoolSteps.refl _) (PoolStep.taskStart c1Dr0 (by decide))
  have h2 : PoolSteps c1Dr0 c1Dr2 :=
    PoolSteps.tail _ _ _ false h1 (PoolStep.taskDone c1Dr1 (by decide))
  have h3 : PoolSteps c1Dr0 c1Dr3 :=
    PoolSteps.tail _ _ _ false h2 (PoolStep.taskStart c1Dr2 (by decide))
  exact PoolSteps.tail _ _ _ false h3 (PoolStep.taskDone c1Dr3 (by decide))

/-- C1 counterexample: a run with the Overwrite policy in which an
overwrite-push displaced a queued directed ExitTask.  Stop(Graceful) is
called from Running, the drain completes (`pending = 0`, `active = 0`),
yet `total_submitted = 2` while
`total_completed + total_failed + total_cancelled = 3`: the displaced
ExitTask was cancelled (`RecordTaskCancel`) without ever being counted as
submitted, so the claimed equality fails. -/
theorem stopGraceful_overwriteExit_counterexample :
    PoolReach c1AfterDisplace ∧ c1AfterDisplace.state = PState.running ∧
      PoolSteps c1Dr0 c1Drained ∧
      c1Drained.pending = 0 ∧ c1Drained.active = 0 ∧
      (gracefulFinish c1Drained).submitted = 2 ∧
      (gracefulFinish c1Drained).completed + (gracefulFinish c1Drained).failed +
          (gracefulFinish c1Drained).cancelled = 3 ∧
      (gracefulFinish c1Drained).submitted ≠
        (gracefulFinish c1Drained).completed + (gracefulFinish c1Drained).failed +
          (gracefulFinish c1Drained).cancelled :=
  ⟨c1_reach_afterDisplace, rfl, c1_drain_steps, rfl, rfl, rfl, rfl, by decide⟩

/-! ### Claim C8 — push rollback after a throwing construction -/

/-- A capacity-2 queue; its first push's in-place construction throws. -/
def c8q0 : CQ Nat := CQ.mk' Nat 2

def c8q1 : CQ Nat := (c8q0.doPush (Except.error ())).2

def c8q2 : CQ Nat := (c8q1.doPush (Except.ok 42)).2

/-- C8: evaluation of `DoPush`/`TryPop` at the failing input.  The first
push's constructor throws; the rollback stores the old sequence back into
the claimed cell (sequence 0 restored) but the producer ticket
`producer_pos_` stays advanced at 1.  A later push succeeds — but into the
*next* cell, never the rolled-back one: the element 42 pushed afterwards is
unreachable (`TryPop` reports empty), and a further push reports full with
only one element in a capacity-2 queue.  Had the failed push never
happened, the same pop would return 42.  So the queue is *not* left in a
state equivalent to one where the failed push never happened, and the
rolled-back slot never accepts a later push. -/
theorem doPush_throw_wedges_queue_eval :
    (c8q0.doPush (Except.error ())).1 = PushTag.threw ∧
      (c8q1.cells 0).1 = 0 ∧
      c8q1.producerPos = 1 ∧
      (c8q1.doPush (Except.ok 42)).1 = PushTag.pushed ∧
      c8q2.tryPop.1 = PopTag.empty ∧
      (c8q2.doPush (Except.ok 7)).1 = PushTag.full ∧
      ((c8q0.doPush (Except.ok 42)).2.tryPop).1 = PopTag.popped 42 := by
  refine ⟨rfl, rfl, rfl, rfl, rfl, rfl, rfl⟩

/-! ### Claim C9 — capacity rounding -/

/-- The spec-side characterisation: `r` is the least power of two that is
at least `max n 2`. -/
def IsLeastPow2Ge (n r : Nat) : Prop :=
  (∃ k, r = 2 ^ k) ∧ max n 2 ≤ r ∧ ∀ j : Nat, max n 2 ≤ 2 ^ j → r ≤ 2 ^ j

/-- Coverage invariant of the smearing loop: bit `j` of `s` is set exactly
when one of bits `j .. j+w-1` of `m` is set. -/
def Cov (m w s : Nat) : Prop :=
  ∀ j, s.testBit j = true ↔ ∃ t, t < w ∧ m.testBit (j + t) = true

theorem cov_refl (m : Nat) : Cov m 1 m := by
  intro j
  constructor
  · intro h
    exact ⟨0, Nat.zero_lt_one, by simpa using h⟩
  · rintro ⟨t, ht, hb⟩
    have ht0 : t = 0 := by omega
    subst ht0
    simpa using hb

theorem cov_orShift {m w s : Nat} (h : Cov m w s) : Cov m (2 * w) (orShift s w) := by
  intro j
  rw [orShift, Nat.testBit_or]
  constructor
  · intro hor
    rcases Bool.or_eq_true_iff.mp hor with hl | hr
    · obtain ⟨t, ht, hb⟩ := (h j).mp hl
      exact ⟨t, by omega, hb⟩
    · rw [Nat.testBit_shiftRight] at hr
      obtain ⟨t, ht, hb⟩ := (h (w + j)).mp hr
      refine ⟨t + w, by omega, ?_⟩
      have : j + (t + w) = w + j + t := by omega
      rw [this]
      exact hb
  · rintro ⟨t, ht, hb⟩
    by_cases hw : t < w
    · exact Bool.or_eq_true_iff.mpr (Or.inl ((h j).mpr ⟨t, hw, hb⟩))
    · refine Bool.or_eq_true_iff.mpr (Or.inr ?_)
      rw [Nat.testBit_shiftRight]
      refine (h (w + j)).mpr ⟨t - w, by omega, ?_⟩
      have : w + j + (t - w) = j + t := by omega
      rw [this]
      exact hb

/-- The smearing cascade of `RoundUpToPow2` applied to `n-1`: shifts
1,2,4,8,16,32 in order. -/
def spread6 (m : Nat) : Nat :=
  orShift (orShift (orShift (orShift (orShift (orShift m 1) 2) 4) 8) 16) 32

theorem cov_spread6 (m : Nat) : Cov m 64 (spread6 m) := by
  have h1 := cov_orShift (cov_refl m)
  have h2 := cov_orShift h1
  have h3 := cov_orShift h2
  have h4 := cov_orShift h3
  have h5 := cov_orShift h4
  have h6 := cov_orShift h5
  simpa [spread6] using h6

theorem roundUpToPow2_eq_spread6 (n : Nat) (h : ¬ n < 2) :
    roundUpToPow2 n = (spread6 (n - 1) + 1) % 2 ^ 64 := by
  simp [roundUpToPow2, h, spread6]

theorem testBit_log2_self {m : Nat} (h0 : m ≠ 0) : m.testBit (Nat.log2 m) = true := by
  have h1 : 2 ^ Nat.log2 m ≤ m := Nat.log2_self_le h0
  have h2 : m < 2 ^ (Nat.log2 m + 1) := Nat.lt_log2_self
  have hpos : 0 < 2 ^ Nat.log2 m := Nat.pos_pow_of_pos _ (by omega)
  have hge : 1 ≤ m / 2 ^ Nat.log2 m := (Nat.one_le_div_iff hpos).mpr h1
  have hlt : m / 2 ^ Nat.log2 m < 2 := by
    rw [Nat.div_lt_iff_lt_mul hpos]
    calc m < 2 ^ (Nat.log2 m + 1) := h2
    _ = 2 * 2 ^ Nat.log2 m := by rw [Nat.pow_succ]; ring
  have hdiv : m / 2 ^ Nat.log2 m = 1 := by omega
  rw [Nat.testBit_to_div_mod, hdiv]
  decide

theorem spread6_eq {m : Nat} (h0 : m ≠ 0) (h64 : m < 2 ^ 64) :
    spread6 m = 2 ^ (Nat.log2 m + 1) - 1 := by
  have hlog : Nat.log2 m < 64 := (Nat.log2_lt h0).mpr h64
  apply Nat.eq_of_testBit_eq
  intro j
  rw [Nat.testBit_two_pow_sub_one]
  have hc := cov_spread6 m j
  by_cases hj : j < Nat.log2 m + 1
  · have hwit : ∃ t, t < 64 ∧ m.testBit (j + t) = true := by
      refine ⟨Nat.log2 m - j, by omega, ?_⟩
      have : j + (Nat.log2 m - j) = Nat.log2 m := by omega
      rw [this]
      exact testBit_log2_self h0
    rw [hc.mpr hwit]
    simp [hj]
  · have hnone : (spread6 m).testBit j = false := by
      cases hval : (spread6 m).testBit j with
      | false => rfl
      | true =>
        obtain ⟨t, _, hb⟩ := hc.mp hval
        have hm : m < 2 ^ (j + t) := by
          calc m < 2 ^ (Nat.log2 m + 1) := Nat.lt_log2_self
          _ ≤ 2 ^ (j + t) := Nat.pow_le_pow_right (by omega) (by omega)
        rw [Nat.testBit_lt_two_pow hm] at hb
        exact absurd hb (by simp)
    rw [hnone]
    simp [hj]

/-- C9 (amended): for every requested capacity `n ≤ 2^63`, `RoundUpToPow2`
(and hence the constructed queue's `Capacity()`) returns the least power of
two that is at least `max n 2`.  (For `n > 2^63` the 64-bit increment at
the end of the function wraps and the result is 0 — see the
counterexample.) -/
theorem roundUpToPow2_least (n : Nat) (hn : n ≤ 2 ^ 63) :
    IsLeastPow2Ge n (roundUpToPow2 n) := by
  by_cases h2 : n < 2
  · have hval : roundUpToPow2 n = 2 := by simp [roundUpToPow2, h2]
    rw [hval]
    have hmax2 : max n 2 = 2 := by omega
    refine ⟨⟨1, rfl⟩, by omega, ?_⟩
    intro j hj
    rw [hmax2] at hj
    exact hj
  · have hm0 : n - 1 ≠ 0 := by omega
    have hm64 : n - 1 < 2 ^ 64 := by
      have : (2 : Nat) ^ 63 < 2 ^ 64 := by norm_num
      omega
    have hspread := spread6_eq hm0 hm64
    have hlog63 : Nat.log2 (n - 1) + 1 ≤ 63 := by
      have : Nat.log2 (n - 1) < 63 := by
        rw [Nat.log2_lt hm0]
        have : (2 : Nat) ^ 63 = 2 ^ 63 := rfl
        omega
      omega
    have hlt64 : 2 ^ (Nat.log2 (n - 1) + 1) ≤ 2 ^ 63 := by
      exact Nat.pow_le_pow_right (by omega) hlog63
    have hval : roundUpToPow2 n = 2 ^ (Nat.log2 (n - 1) + 1) := by
      rw [roundUpToPow2_eq_spread6 n h2, hspread]
      have hpos : 0 < 2 ^ (Nat.log2 (n - 1) + 1) := Nat.pos_pow_of_pos _ (by omega)
      have : 2 ^ (Nat.log2 (n - 1) + 1) - 1 + 1 = 2 ^ (Nat.log2 (n - 1) + 1) := by omega
      rw [this]
      apply Nat.mod_eq_of_lt
      calc 2 ^ (Nat.log2 (n - 1) + 1) ≤ 2 ^ 63 := hlt64
      _ < 2 ^ 64 := by norm_num
    rw [hval]
    have hmax : max n 2 = n := by omega
    refine ⟨⟨_, rfl⟩, ?_, ?_⟩
    · rw [hmax]
      have := Nat.lt_log2_self (n := n - 1)
      omega
    · intro j hj
      rw [hmax] at hj
      apply Nat.pow_le_pow_right (by omega)
      by_contra hcon
      push_neg at hcon
      have hjle : j ≤ Nat.log2 (n - 1) := by omega
      have h1 : 2 ^ j ≤ 2 ^ Nat.log2 (n - 1) := Nat.pow_le_pow_right (by omega) hjle
      have h2' : 2 ^ Nat.log2 (n - 1) ≤ n - 1 := Nat.log2_self_le hm0
      omega

/-- Witness for `roundUpToPow2_least` at `n = 5` (capacity rounds to 8). -/
theorem roundUpToPow2_least_witness :
    (5 : Nat) ≤ 2 ^ 63 ∧ IsLeastPow2Ge 5 (roundUpToPow2 5) :=
  ⟨by norm_num, roundUpToPow2_least 5 (by norm_num)⟩

/-- C9 counterexample: the claim quantifies over every requested capacity,
but at `n = 2^63 + 1` the final increment of `RoundUpToPow2` overflows the
64-bit `size_type` and the function returns 0 — not the least power of two
`≥ max(n, 2)` (which would be `2^64` and does not fit). -/
theorem roundUpToPow2_overflow_counterexample :
    roundUpToPow2 (2 ^ 63 + 1) = 0 ∧
      ¬ IsLeastPow2Ge (2 ^ 63 + 1) (roundUpToPow2 (2 ^ 63 + 1)) := by
  have hval : roundUpToPow2 (2 ^ 63 + 1) = 0 := by decide
  refine ⟨hval, ?_⟩
  rw [hval]
  rintro ⟨-, hge, -⟩
  have : max (2 ^ 63 + 1) 2 = 2 ^ 63 + 1 := by
    have : (2 : Nat) ≤ 2 ^ 63 + 1 := by norm_num
    omega
  rw [this] at hge
  omega

/-! ### Claim C10 — close semantics of the blocking adapter

Well-formedness of a quiescent queue state: the abstraction `ab` lists the
unconsumed elements in FIFO order.  Ticket `c + i` (for `i` below the
size) sits in cell `(c + i) % N` with sequence `c + i + 1` and holds
`ab[i]`; the remaining tickets of the window have their cell sequence
equal to the ticket and empty storage.  These are exactly the states
reachable by pushes and pops whose construction does not throw. -/

def CQWF (q : CQ α) (ab : List α) : Prop :=
  (∃ k, q.capacity = 2 ^ k) ∧
  2 ≤ q.capacity ∧
  q.consumerPos ≤ q.producerPos ∧
  q.producerPos ≤ q.consumerPos + q.capacity ∧
  ab.length = q.producerPos - q.consumerPos ∧
  (∀ i, i < ab.length →
    q.cells ((q.consumerPos + i) % q.capacity) = (q.consumerPos + i + 1, ab[i]?)) ∧
  (∀ i, ab.length ≤ i → i < q.capacity →
    q.cells ((q.consumerPos + i) % q.capacity) = (q.consumerPos + i, none))

/-- Distinct offsets inside one capacity window land in distinct cells. -/
theorem mod_window_inj {N c i j : Nat} (hi : i < N) (hj : j < N)
    (h : (c + i) % N = (c + j) % N) : i = j := by
  have hmod : i % N = j % N := Nat.ModEq.add_left_cancel (Nat.ModEq.refl c) h
  rwa [Nat.mod_eq_of_lt hi, Nat.mod_eq_of_lt hj] at hmod

/-- The state after a successful push (producer ticket claimed, element
constructed, cell published). -/
def CQ.afterPush (q : CQ α) (v : α) : CQ α :=
  { q with
      cells := q.setCell (q.producerPos % q.capacity) (q.producerPos + 1, some v)
      producerPos := q.producerPos + 1 }

/-- The state after a successful pop (element moved out, storage destroyed,
cell sequence advanced by the capacity). -/
def CQ.afterPop (q : CQ α) : CQ α :=
  { q with
      cells := q.setCell (q.consumerPos % q.capacity) (q.consumerPos + q.capacity, none)
      consumerPos := q.consumerPos + 1 }

theorem cq_push_ok {α : Type} {q : CQ α} {ab : List α} (h : CQWF q ab) (v : α)
    (hroom : ab.length < q.capacity) :
    q.doPush (Except.ok v) = (PushTag.pushed, q.afterPush v) ∧
      CQWF (q.afterPush v) (ab ++ [v]) := by
  obtain ⟨⟨k, hk⟩, hcap2, hle, hwin, hlen, hfill, hfree⟩ := h
  have hNpos : 0 < q.capacity := by omega
  have hmask : q.producerPos &&& (q.capacity - 1) = q.producerPos % q.capacity := by
    rw [hk]
    exact Nat.and_pow_two_sub_one_eq_mod _ _
  have hprod : q.producerPos = q.consumerPos + ab.length := by omega
  have hseq : q.cells (q.producerPos % q.capacity) = (q.producerPos, none) := by
    have := hfree ab.length (Nat.le_refl _) hroom
    rw [hprod]
    exact this
  refine ⟨by simp [CQ.doPush, CQ.afterPush, hmask, hseq], ?_⟩
  refine ⟨⟨k, hk⟩, hcap2, ?_, ?_, ?_, ?_, ?_⟩
  · show q.consumerPos ≤ q.producerPos + 1
    omega
  · show q.producerPos + 1 ≤ q.consumerPos + q.capacity
    omega
  · show (ab ++ [v]).length = q.producerPos + 1 - q.consumerPos
    simp
    omega
  · intro i hi
    have hi' : i < ab.length + 1 := by
      have : (ab ++ [v]).length = ab.length + 1 := by simp
      omega
    show q.setCell (q.producerPos % q.capacity) (q.producerPos + 1, some v)
        ((q.consumerPos + i) % q.capacity) = (q.consumerPos + i + 1, (ab ++ [v])[i]?)
    by_cases hiL : i < ab.length
    · have hne : (q.consumerPos + i) % q.capacity ≠ q.producerPos % q.capacity := by
        rw [hprod]
        intro hcon
        exact absurd (mod_window_inj (by omega) hroom hcon) (by omega)
      simp only [CQ.setCell]
      rw [if_neg hne, List.getElem?_append_left hiL]
      exact hfill i hiL
    · have hiEq : i = ab.length := by omega
      subst hiEq
      simp only [CQ.setCell]
      rw [if_pos (by rw [hprod])]
      have hv : (ab ++ [v])[ab.length]? = some v := by
        rw [List.getElem?_append_right (Nat.le_refl _)]
        simp
      rw [hv, hprod]
  · intro i hi hiN
    have hi' : ab.length + 1 ≤ i := by
      have : (ab ++ [v]).length = ab.length + 1 := by simp
      omega
    have hiN' : i < q.capacity := hiN
    show q.setCell (q.producerPos % q.capacity) (q.producerPos + 1, some v)
        ((q.consumerPos + i) % q.capacity) = (q.consumerPos + i, none)
    have hne : (q.consumerPos + i) % q.capacity ≠ q.producerPos % q.capacity := by
      rw [hprod]
      intro hcon
      exact absurd (mod_window_inj hiN' hroom hcon) (by omega)
    simp only [CQ.setCell]
    rw [if_neg hne]
    exact hfree i (by omega) hiN'

theorem cq_push_full {α : Type} {q : CQ α} {ab : List α} (h : CQWF q ab) (v : α)
    (hfull : ab.length = q.capacity) :
    q.doPush (Except.ok v) = (PushTag.full, q) := by
  obtain ⟨⟨k, hk⟩, hcap2, hle, hwin, hlen, hfill, hfree⟩ := h
  have hNpos : 0 < q.capacity := by omega
  have hmask : q.producerPos &&& (q.capacity - 1) = q.producerPos % q.capacity := by
    rw [hk]
    exact Nat.and_pow_two_sub_one_eq_mod _ _
  have hprod : q.producerPos = q.consumerPos + q.capacity := by omega
  have h0 : 0 < ab.length := by omega
  have hx : ∃ x, ab[0]? = some x := by
    cases ab with
    | nil => simp at h0
    | cons a l => exact ⟨a, by simp⟩
  obtain ⟨x, hx⟩ := hx
  have hcell : q.cells (q.producerPos % q.capacity) = (q.consumerPos + 1, some x) := by
    have hidx : q.producerPos % q.capacity = (q.consumerPos + 0) % q.capacity := by
      rw [hprod]
      simp [Nat.add_mod_right]
    rw [hidx]
    have := hfill 0 h0
    rw [this, hx]
  have hcapI : (2 : Int) ≤ (q.capacity : Int) := by exact_mod_cast hcap2
  have hprodI : (q.producerPos : Int) = (q.consumerPos : Int) + (q.capacity : Int) := by
    exact_mod_cast hprod
  simp only [CQ.doPush, hmask, hcell]
  rw [if_neg (by push_cast; omega), if_pos (by push_cast; omega)]

theorem cq_pop_cons {α : Type} {q : CQ α} {x : α} {rest : List α}
    (h : CQWF q (x :: rest)) :
    q.tryPop = (PopTag.popped x, q.afterPop) ∧ CQWF q.afterPop rest := by
  obtain ⟨⟨k, hk⟩, hcap2, hle, hwin, hlen, hfill, hfree⟩ := h
  have hNpos : 0 < q.capacity := by omega
  have hmask : q.consumerPos &&& (q.capacity - 1) = q.consumerPos % q.capacity := by
    rw [hk]
    exact Nat.and_pow_two_sub_one_eq_mod _ _
  have hcell : q.cells (q.consumerPos % q.capacity) = (q.consumerPos + 1, some x) := by
    have hidx : q.consumerPos % q.capacity = (q.consumerPos + 0) % q.capacity := by
      simp
    rw [hidx]
    have := hfill 0 (by simp)
    rw [this]
    simp
  have hlen' : rest.length + 1 = q.producerPos - q.consumerPos := by
    simpa using hlen
  refine ⟨by simp [CQ.tryPop, CQ.afterPop, hmask, hcell], ?_⟩
  refine ⟨⟨k, hk⟩, hcap2, ?_, ?_, ?_, ?_, ?_⟩
  · show q.consumerPos + 1 ≤ q.producerPos
    omega
  · show q.producerPos ≤ q.consumerPos + 1 + q.capacity
    omega
  · show rest.length = q.producerPos - (q.consumerPos + 1)
    omega
  · intro i hi
    have hi' : i < rest.length := hi
    show q.setCell (q.consumerPos % q.capacity) (q.consumerPos + q.capacity, none)
        ((q.consumerPos + 1 + i) % q.capacity) = (q.consumerPos + 1 + i + 1, rest[i]?)
    have hshift : q.consumerPos + 1 + i = q.consumerPos + (i + 1) := by omega
    have hne : (q.consumerPos + 1 + i) % q.capacity ≠ q.consumerPos % q.capacity := by
      rw [hshift]
      conv_rhs => rw [show q.consumerPos = q.consumerPos + 0 from rfl]
      intro hcon
      have hi1 : i + 1 < q.capacity := by omega
      exact absurd (mod_window_inj hi1 hNpos hcon) (by omega)
    simp only [CQ.setCell]
    rw [if_neg hne, hshift]
    have hfl := hfill (i + 1) (by simp; omega)
    rw [hfl]
    simp
  · intro i hi hiN
    have hi' : rest.length ≤ i := hi
    have hiN' : i < q.capacity := hiN
    show q.setCell (q.consumerPos % q.capacity) (q.consumerPos + q.capacity, none)
        ((q.consumerPos + 1 + i) % q.capacity) = (q.consumerPos + 1 + i, none)
    by_cases hlast : i + 1 = q.capacity
    · have hidxEq : (q.consumerPos + 1 + i) % q.capacity =
          q.consumerPos % q.capacity := by
        have heq : q.consumerPos + 1 + i = q.consumerPos + q.capacity := by omega
        rw [heq, Nat.add_mod_right]
      simp only [CQ.setCell]
      rw [if_pos hidxEq]
      have heq : q.consumerPos + q.capacity = q.consumerPos + 1 + i := by omega
      rw [heq]
    · have hshift : q.consumerPos + 1 + i = q.consumerPos + (i + 1) := by omega
      have hne : (q.consumerPos + 1 + i) % q.capacity ≠ q.consumerPos % q.capacity := by
        rw [hshift]
        conv_rhs => rw [show q.consumerPos = q.consumerPos + 0 from rfl]
        intro hcon
        have hi1 : i + 1 < q.capacity := by omega
        exact absurd (mod_window_inj hi1 hNpos hcon) (by omega)
      simp only [CQ.setCell]
      rw [if_neg hne, hshift]
      exact hfree (i + 1) (by simp; omega) (by omega)

theorem cq_pop_nil {α : Type} {q : CQ α} (h : CQWF q []) :
    q.tryPop = (PopTag.empty, q) := by
  obtain ⟨⟨k, hk⟩, hcap2, hle, hwin, hlen, hfill, hfree⟩ := h
  have hNpos : 0 < q.capacity := by omega
  have hmask : q.consumerPos &&& (q.capacity - 1) = q.consumerPos % q.capacity := by
    rw [hk]
    exact Nat.and_pow_two_sub_one_eq_mod _ _
  have hcell : q.cells (q.consumerPos % q.capacity) = (q.consumerPos, none) := by
    have := hfree 0 (by simp) hNpos
    simpa using this
  simp only [CQ.tryPop, hmask, hcell]
  rw [if_neg (by omega), if_pos (by omega)]

/-- Adapter well-formedness: the underlying queue is well-formed and the
pending counter equals the number of unconsumed elements. -/
def BQWF (b : BQ α) (ab : List α) : Prop :=
  CQWF b.q ab ∧ b.pending = ab.length

theorem bq_mk_wf (α : Type) (cap : Nat) (hcap : cap ≤ 2 ^ 63) :
    BQWF (BQ.mk' α cap) [] := by
  obtain ⟨⟨k, hk⟩, hge, -⟩ := roundUpToPow2_least cap hcap
  have h2 : 2 ≤ roundUpToPow2 cap := le_trans (Nat.le_max_right cap 2) hge
  refine ⟨⟨⟨k, hk⟩, h2, Nat.le_refl 0, Nat.zero_le _, rfl, ?_, ?_⟩, rfl⟩
  · intro i hi
    simp at hi
  · intro i _ hiN
    have hiN' : i < roundUpToPow2 cap := hiN
    show (fun j => (j, (none : Option α))) ((0 + i) % roundUpToPow2 cap) = (0 + i, none)
    simp [Nat.mod_eq_of_lt hiN']

theorem bq_push_wf {α : Type} {b : BQ α} {ab : List α} (hwf : BQWF b ab) (v : α)
    (hopen : b.closed = false) (hroom : ab.length < b.q.capacity) :
    b.tryPush v =
        some (true, { b with q := b.q.afterPush v, pending := b.pending + 1 }) ∧
      BQWF { b with q := b.q.afterPush v, pending := b.pending + 1 } (ab ++ [v]) := by
  obtain ⟨hq, hp⟩ := hwf
  obtain ⟨hstep, hwf'⟩ := cq_push_ok hq v hroom
  refine ⟨?_, hwf', ?_⟩
  · simp [BQ.tryPush, hopen, hstep]
  · simp [hp]

theorem bq_close_wf {α : Type} {b : BQ α} {ab : List α} (hwf : BQWF b ab) :
    BQWF b.close ab := hwf

/-- C10: once the adapter is closed, pops still drain the remaining items.
On any well-formed closed adapter: if the queue is non-empty, `TryPop` and
`WaitPop` both succeed and return the oldest item; `WaitPop` returns the
closed signal exactly when the queue is empty; and `TryPush` fails
immediately, leaving the adapter unchanged. -/
theorem closed_adapter_drains {α : Type} (b : BQ α) (ab : List α) (v : α)
    (hwf : BQWF b ab) (hclosed : b.closed = true) :
    (∀ x rest, ab = x :: rest →
      b.tryPop = some (some x, { b with q := b.q.afterPop, pending := b.pending - 1 }) ∧
        b.waitPop =
          WaitPopRes.got x { b with q := b.q.afterPop, pending := b.pending - 1 }) ∧
    (b.waitPop = WaitPopRes.closedSig ↔ ab = []) ∧
    b.tryPush v = some (false, b) := by
  obtain ⟨hq, hp⟩ := hwf
  refine ⟨?_, ?_, ?_⟩
  · intro x rest hab
    subst hab
    obtain ⟨hpop, -⟩ := cq_pop_cons hq
    constructor
    · simp [BQ.tryPop, hpop]
    · simp [BQ.waitPop, hpop]
  · cases ab with
    | nil =>
      have hpop := cq_pop_nil hq
      simp [BQ.waitPop, hpop, hclosed]
    | cons x rest =>
      obtain ⟨hpop, -⟩ := cq_pop_cons hq
      simp [BQ.waitPop, hpop]
  · simp [BQ.tryPush, hclosed]

/-- Fixture for the witness: a fresh capacity-2 adapter holding the single
element 7, then closed. -/
def c10Fresh : BQ Nat := BQ.mk' Nat 2

def c10One : BQ Nat := { c10Fresh with q := c10Fresh.q.afterPush 7, pending := c10Fresh.pending + 1 }

def c10Closed : BQ Nat := c10One.close

theorem c10_closed_wf : BQWF c10Closed [7] := by
  have h0 : BQWF c10Fresh [] := bq_mk_wf Nat 2 (by norm_num)
  have h1 := (bq_push_wf h0 7 rfl (by
    obtain ⟨⟨-, hcap2, -, -, -, -, -⟩, -⟩ := h0
    show 0 < c10Fresh.q.capacity
    omega)).2
  exact bq_close_wf h1

/-- Witness for `closed_adapter_drains`: the closed one-element adapter
still pops its item, does not signal closed, and rejects pushes. -/
theorem closed_adapter_drains_witness :
    BQWF c10Closed [7] ∧ c10Closed.closed = true ∧
      (c10Closed.tryPop =
          some (some 7,
            { c10Closed with q := c10Closed.q.afterPop, pending := c10Closed.pending - 1 }) ∧
        ¬(c10Closed.waitPop = WaitPopRes.closedSig) ∧
        c10Closed.tryPush 9 = some (false, c10Closed)) := by
  have h := closed_adapter_drains c10Closed [7] 9 c10_closed_wf rfl
  refine ⟨c10_closed_wf, rfl, (h.1 7 [] rfl).1, ?_, h.2.2⟩
  intro hcon
  exact absurd (h.2.1.mp hcon) (by decide)

/-! ### Claim C4 — organizer membership and duplicate-freedom

Repository states reachable through the manager operations.  The
generated meeting id and code and the wall clock are oracle parameters of
each constructor. -/

inductive ReachM (config : MeetingConfig) : MeetingRepo → Prop
  | init : ReachM config []
  | create (r : MeetingRepo) (cmd : CreateMeetingCommand) (gid gcode : String) (now : Int) :
      ReachM config r → ReachM config (createMeeting r cmd gid gcode now).2.1
  | join (r : MeetingRepo) (cmd : JoinMeetingCommand) (now : Int) :
      ReachM config r → ReachM config (joinMeeting config r cmd now).2.1
  | leave (r : MeetingRepo) (cmd : LeaveMeetingCommand) (now : Int) :
      ReachM config r → ReachM config (leaveMeeting config r cmd now).2.1
  | endm (r : MeetingRepo) (cmd : EndMeetingCommand) (now : Int) :
      ReachM config r → ReachM config (endMeeting r cmd now).2.1

/-- The map keys are distinct (the repository is an `unordered_map`). -/
def KeysOK (r : MeetingRepo) : Prop := (r.map Prod.fst).Nodup

/-- Every entry is stored under its own meeting id. -/
def KeyConsist (r : MeetingRepo) : Prop := ∀ p ∈ r, p.2.meeting_id = p.1

/-- No participants list contains duplicates. -/
def NodupAll (r : MeetingRepo) : Prop := ∀ p ∈ r, p.2.participants.Nodup

/-- The organizer is a member of every non-Ended meeting. -/
def OrgAll (r : MeetingRepo) : Prop :=
  ∀ p ∈ r, p.2.state ≠ MeetingState.kEnded → p.2.organizer_id ∈ p.2.participants

/-- Combined repository invariant; the organizer clause is tracked only
when `end_when_organizer_leaves` is set. -/
def RepoInv (flag : Bool) (r : MeetingRepo) : Prop :=
  KeysOK r ∧ KeyConsist r ∧ NodupAll r ∧ (flag = true → OrgAll r)

theorem lookup_mem {r : MeetingRepo} {k : String} {m : MeetingData}
    (h : r.lookup k = some m) : (k, m) ∈ r := by
  induction r with
  | nil => simp at h
  | cons hd tl ih =>
    obtain ⟨a, b⟩ := hd
    by_cases hak : k = a
    · subst hak
      simp only [List.lookup_cons_self] at h
      injection h with h
      subst h
      exact List.mem_cons_self _ _
    · have hne : (k == a) = false := beq_eq_false_iff_ne.mpr hak
      rw [List.lookup_cons, hne] at h
      exact List.mem_cons_of_mem _ (ih h)

theorem keys_repoSet (r : MeetingRepo) (k : String) (f : MeetingData → MeetingData) :
    (repoSet r k f).map Prod.fst = r.map Prod.fst := by
  unfold repoSet
  rw [List.map_map]
  apply List.map_congr_left
  intro p _
  by_cases h : p.1 = k
  · simp [h]
  · simp [h]

theorem mem_repoSet_elim {r : MeetingRepo} {k : String} {f : MeetingData → MeetingData}
    {p : String × MeetingData} (hp : p ∈ repoSet r k f) :
    (p ∈ r ∧ p.1 ≠ k) ∨ (∃ m, (k, m) ∈ r ∧ p = (k, f m)) := by
  obtain ⟨q, hq, hpq⟩ := List.mem_map.mp hp
  by_cases h : q.1 = k
  · right
    refine ⟨q.2, ?_, ?_⟩
    · have : q = (k, q.2) := by
        obtain ⟨q1, q2⟩ := q
        simp at h
        subst h
        rfl
      rwa [this] at hq
    · rw [if_pos h] at hpq
      rw [← hpq, h]
  · left
    rw [if_neg h] at hpq
    subst hpq
    exact ⟨hq, h⟩

theorem lookup_unique {r : MeetingRepo} {k : String} {m m' : MeetingData}
    (hkeys : KeysOK r) (hmem : (k, m') ∈ r) (hget : r.lookup k = some m) : m' = m := by
  induction r with
  | nil => simp at hmem
  | cons hd tl ih =>
    obtain ⟨a, b⟩ := hd
    rcases List.mem_cons.mp hmem with heq | htl
    · injection heq with h1 h2
      subst h1
      subst h2
      rw [List.lookup_cons_self] at hget
      cases hget
      rfl
    · have hka : k ≠ a := by
        intro hcon
        subst hcon
        have : k ∈ tl.map Prod.fst := List.mem_map.mpr ⟨(k, m'), htl, rfl⟩
        simp only [KeysOK, List.map_cons, List.nodup_cons] at hkeys
        exact hkeys.1 this
      have hne : (k == a) = false := beq_eq_false_iff_ne.mpr hka
      rw [List.lookup_cons, hne] at hget
      have hkeys' : KeysOK tl := by
        simp only [KeysOK, List.map_cons, List.nodup_cons] at hkeys
        exact hkeys.2
      exact ih hkeys' htl hget

/-- The organizer clause restricted to entries other than `k`. -/
def OrgAllExcept (k : String) (r : MeetingRepo) : Prop :=
  ∀ p ∈ r, p.1 ≠ k → p.2.state ≠ MeetingState.kEnded →
    p.2.organizer_id ∈ p.2.participants

theorem mem_key_repoSet {r : MeetingRepo} {k : String} {f : MeetingData → MeetingData}
    {m m' : MeetingData} (hkeys : KeysOK r) (hget : r.lookup k = some m)
    (hmem : (k, m') ∈ repoSet r k f) : m' = f m := by
  rcases mem_repoSet_elim hmem with ⟨-, hne⟩ | ⟨q, hq, heq⟩
  · exact absurd rfl hne
  · injection heq with h1 h2
    have : q = m := lookup_unique hkeys hq hget
    rw [h2, this]

theorem repoSet_base {flag : Bool} {r : MeetingRepo} {k : String}
    {f : MeetingData → MeetingData} {m : MeetingData}
    (h : RepoInv flag r) (hget : r.lookup k = some m)
    (hmidf : (f m).meeting_id = m.meeting_id)
    (hnodupf : m.participants.Nodup → (f m).participants.Nodup) :
    KeysOK (repoSet r k f) ∧ KeyConsist (repoSet r k f) ∧
      NodupAll (repoSet r k f) ∧ (flag = true → OrgAllExcept k (repoSet r k f)) := by
  obtain ⟨hkeys, hcons, hnd, horg⟩ := h
  have hmkey : m.meeting_id = k := hcons (k, m) (lookup_mem hget)
  refine ⟨?_, ?_, ?_, ?_⟩
  · unfold KeysOK
    rw [keys_repoSet]
    exact hkeys
  · intro p hp
    rcases mem_repoSet_elim hp with ⟨hpr, -⟩ | ⟨q, hq, heq⟩
    · exact hcons p hpr
    · have : q = m := lookup_unique hkeys hq hget
      subst this
      rw [heq]
      show (f q).meeting_id = k
      rw [hmidf, hmkey]
  · intro p hp
    rcases mem_repoSet_elim hp with ⟨hpr, -⟩ | ⟨q, hq, heq⟩
    · exact hnd p hpr
    · have : q = m := lookup_unique hkeys hq hget
      subst this
      rw [heq]
      exact hnodupf (hnd (k, q) hq)
  · intro hflag p hp hpk
    rcases mem_repoSet_elim hp with ⟨hpr, -⟩ | ⟨q, hq, heq⟩
    · exact horg hflag p hpr
    · exfalso
      apply hpk
      rw [heq]

theorem orgAll_of_except {r : MeetingRepo} {k : String}
    (hex : OrgAllExcept k r)
    (htarget : ∀ m', (k, m') ∈ r → m'.state ≠ MeetingState.kEnded →
      m'.organizer_id ∈ m'.participants) : OrgAll r := by
  intro p hp hstate
  by_cases hpk : p.1 = k
  · obtain ⟨p1, p2⟩ := p
    simp only at hpk
    subst hpk
    exact htarget p2 hp hstate
  · exact hex p hp hpk hstate

/-- From the source: `AddParticipant` preserves the repository invariant. -/
theorem repoAdd_inv {flag : Bool} {r : MeetingRepo} {mid : String} {pid : Nat}
    {b : Bool} (h : RepoInv flag r) :
    RepoInv flag (repoAddParticipant r mid pid b).2 := by
  unfold repoAddParticipant
  cases hget : r.lookup mid with
  | none => exact h
  | some m =>
    by_cases hmem : pid ∈ m.participants
    · simp only [if_pos hmem]
      exact h
    · simp only [if_neg hmem]
      have hbase := repoSet_base (f := fun m =>
          { m with participants := m.participants ++ [pid] }) h hget rfl
        (fun hnd => by
          simp only [List.nodup_append, List.nodup_cons, List.nodup_nil]
          exact ⟨hnd, by simp, by simpa [List.disjoint_singleton] using hmem⟩)
      obtain ⟨hkeys', hcons', hnd', hex'⟩ := hbase
      refine ⟨hkeys', hcons', hnd', ?_⟩
      intro hflag
      apply orgAll_of_except (hex' hflag)
      intro m' hm' hstate
      have hm'eq : m' = { m with participants := m.participants ++ [pid] } :=
        mem_key_repoSet h.1 hget hm'
      subst hm'eq
      simp only []
      have : m.state ≠ MeetingState.kEnded := hstate
      have horgm : m.organizer_id ∈ m.participants :=
        h.2.2.2 hflag (mid, m) (lookup_mem hget) this
      exact List.mem_append_left _ horgm

/-- From the source: `UpdateMeetingState` on a present key preserves the invariant, given
the organizer clause for all other entries and, when the new state is not
Ended, for the target entry. -/
theorem repoUpd_inv {flag : Bool} {r : MeetingRepo} {mid : String}
    {st : MeetingState} {t : Int} {m : MeetingData}
    (hkeys : KeysOK r) (hcons : KeyConsist r) (hnd : NodupAll r)
    (hget : r.lookup mid = some m)
    (hex : flag = true → OrgAllExcept mid r)
    (htarget : flag = true → st ≠ MeetingState.kEnded →
      m.organizer_id ∈ m.participants) :
    RepoInv flag (repoUpdateMeetingState r mid st t).2 := by
  have hmkey : m.meeting_id = mid := hcons (mid, m) (lookup_mem hget)
  unfold repoUpdateMeetingState
  rw [hget]
  show RepoInv flag (repoSet r mid fun m => { m with state := st, updated_at := t })
  refine ⟨?_, ?_, ?_, ?_⟩
  · unfold KeysOK
    rw [keys_repoSet]
    exact hkeys
  · intro p hp
    rcases mem_repoSet_elim hp with ⟨hpr, -⟩ | ⟨q, hq, heq⟩
    · exact hcons p hpr
    · have hqm : q = m := lookup_unique hkeys hq hget
      rw [heq, hqm]
      exact hmkey
  · intro p hp
    rcases mem_repoSet_elim hp with ⟨hpr, -⟩ | ⟨q, hq, heq⟩
    · exact hnd p hpr
    · have hqm : q = m := lookup_unique hkeys hq hget
      rw [heq, hqm]
      exact hnd (mid, m) (hqm ▸ hq)
  · intro hflag p hp hstate
    rcases mem_repoSet_elim hp with ⟨hpr, hpk⟩ | ⟨q, hq, heq⟩
    · exact hex hflag p hpr hpk hstate
    · have hqm : q = m := lookup_unique hkeys hq hget
      rw [heq, hqm] at hstate ⊢
      exact htarget hflag hstate

/-- From the source: `RemoveParticipant` preserves everything except possibly the organizer
clause of the touched entry (which it preserves whenever the removed
participant is not the organizer). -/
theorem repoRemove_inv {flag : Bool} {r : MeetingRepo} {mid : String} {pid : Nat}
    (h : RepoInv flag r) :
    KeysOK (repoRemoveParticipant r mid pid).2 ∧
      KeyConsist (repoRemoveParticipant r mid pid).2 ∧
      NodupAll (repoRemoveParticipant r mid pid).2 ∧
      (flag = true → OrgAllExcept mid (repoRemoveParticipant r mid pid).2) ∧
      (flag = true →
        (∀ m, r.lookup mid = some m → pid ≠ m.organizer_id) →
        OrgAll (repoRemoveParticipant r mid pid).2) := by
  unfold repoRemoveParticipant
  cases hget : r.lookup mid with
  | none => exact ⟨h.1, h.2.1, h.2.2.1, fun hf p hp hpk => h.2.2.2 hf p hp,
      fun hf _ => h.2.2.2 hf⟩
  | some m =>
    by_cases hmem : pid ∈ m.participants
    · simp only [if_pos hmem]
      have hbase := repoSet_base (f := fun m =>
          { m with participants := m.participants.erase pid }) h hget rfl
        (fun hnd => hnd.erase pid)
      obtain ⟨hkeys', hcons', hnd', hex'⟩ := hbase
      refine ⟨hkeys', hcons', hnd', hex', ?_⟩
      intro hflag hnotorg
      apply orgAll_of_except (hex' hflag)
      intro m' hm' hstate
      have hm'eq : m' = { m with participants := m.participants.erase pid } :=
        mem_key_repoSet h.1 hget hm'
      subst hm'eq
      have hstate' : m.state ≠ MeetingState.kEnded := hstate
      have horgm : m.organizer_id ∈ m.participants :=
        h.2.2.2 hflag (mid, m) (lookup_mem hget) hstate'
      have hne : m.organizer_id ≠ pid := fun hcon => hnotorg m rfl hcon.symm
      exact (List.mem_erase_of_ne hne).mpr horgm
    · simp only [if_neg hmem]
      exact ⟨h.1, h.2.1, h.2.2.1, fun hf p hp hpk => h.2.2.2 hf p hp,
        fun hf _ => h.2.2.2 hf⟩

theorem key_not_mem_of_lookup_none {r : MeetingRepo} {k : String}
    (h : r.lookup k = none) : k ∉ r.map Prod.fst := by
  induction r with
  | nil => simp
  | cons hd tl ih =>
    obtain ⟨a, b⟩ := hd
    by_cases hak : k = a
    · subst hak
      simp [List.lookup_cons_self] at h
    · have hne : (k == a) = false := beq_eq_false_iff_ne.mpr hak
      rw [List.lookup_cons, hne] at h
      simp only [List.map_cons, List.mem_cons]
      rintro (hcon | hcon)
      · exact hak hcon
      · exact ih h hcon

theorem repoAppend_inv {flag : Bool} {r : MeetingRepo} {d : MeetingData}
    (h : RepoInv flag r) (hnew : r.lookup d.meeting_id = none)
    (hnd : d.participants.Nodup)
    (horg : d.state ≠ MeetingState.kEnded → d.organizer_id ∈ d.participants) :
    RepoInv flag (r ++ [(d.meeting_id, d)]) := by
  obtain ⟨hkeys, hcons, hndAll, horgAll⟩ := h
  refine ⟨?_, ?_, ?_, ?_⟩
  · unfold KeysOK
    rw [List.map_append]
    rw [List.nodup_append]
    refine ⟨hkeys, by simp, ?_⟩
    intro a ha hb
    simp only [List.map_cons, List.map_nil, List.mem_cons, List.not_mem_nil,
      or_false] at hb
    subst hb
    exact key_not_mem_of_lookup_none hnew ha
  · intro p hp
    rcases List.mem_append.mp hp with hpr | hpd
    · exact hcons p hpr
    · simp only [List.mem_cons, List.not_mem_nil, or_false] at hpd
      subst hpd
      rfl
  · intro p hp
    rcases List.mem_append.mp hp with hpr | hpd
    · exact hndAll p hpr
    · simp only [List.mem_cons, List.not_mem_nil, or_false] at hpd
      subst hpd
      exact hnd
  · intro hflag p hp hstate
    rcases List.mem_append.mp hp with hpr | hpd
    · exact horgAll hflag p hpr hstate
    · simp only [List.mem_cons, List.not_mem_nil, or_false] at hpd
      subst hpd
      exact horg hstate

/-- From the source: `CreateMeeting` preserves the repository invariant. -/
theorem createMeeting_inv {flag : Bool} (r : MeetingRepo) (cmd : CreateMeetingCommand)
    (gid gcode : String) (now : Int) (h : RepoInv flag r) :
    RepoInv flag (createMeeting r cmd gid gcode now).2.1 := by
  unfold createMeeting
  by_cases h1 : cmd.organizer_id = 0
  · simp only [if_pos h1]
    exact h
  · simp only [if_neg h1]
    by_cases h2 : cmd.topic = ""
    · simp only [if_pos h2]
      exact h
    · simp only [if_neg h2]
      simp only [repoCreateMeeting]
      cases hget : r.lookup gid with
      | some m0 =>
        simp [Status.IsOk, Status.AlreadyExists]
        exact h
      | none =>
        rw [if_neg (by decide : ¬(Status.OK.IsOk = false))]
        have happ := @repoAppend_inv flag r
          { meeting_id := gid, meeting_code := gcode,
            organizer_id := cmd.organizer_id, topic := cmd.topic,
            state := MeetingState.kScheduled,
            participants := [cmd.organizer_id], created_at := now,
            updated_at := now }
          h hget (List.nodup_singleton _) (fun _ => List.mem_singleton_self _)
        have happ' : RepoInv flag (r ++ [(gid,
            { meeting_id := gid, meeting_code := gcode,
              organizer_id := cmd.organizer_id, topic := cmd.topic,
              state := MeetingState.kScheduled,
              participants := [cmd.organizer_id], created_at := now,
              updated_at := now })]) := happ
        have hadd := @repoAdd_inv flag _ gid cmd.organizer_id true happ'
        rcases hadd_eq : repoAddParticipant (r ++ [(gid,
            { meeting_id := gid, meeting_code := gcode,
              organizer_id := cmd.organizer_id, topic := cmd.topic,
              state := MeetingState.kScheduled,
              participants := [cmd.organizer_id], created_at := now,
              updated_at := now })]) gid cmd.organizer_id true with ⟨add_st, r2⟩
        rw [hadd_eq] at hadd
        rw [hadd_eq]
        split <;> exact hadd

/-- From the source: `JoinMeeting` preserves the repository invariant. -/
theorem joinMeeting_inv {flag : Bool} (config : MeetingConfig) (r : MeetingRepo)
    (cmd : JoinMeetingCommand) (now : Int) (h : RepoInv flag r) :
    RepoInv flag (joinMeeting config r cmd now).2.1 := by
  unfold joinMeeting
  by_cases h1 : cmd.meeting_id = ""
  · simp only [if_pos h1]
    exact h
  · simp only [if_neg h1]
    by_cases h2 : cmd.participant_id = 0
    · simp only [if_pos h2]
      exact h
    · simp only [if_neg h2]
      unfold repoGetMeeting
      cases hget : r.lookup cmd.meeting_id with
      | none => exact h
      | some m =>
        by_cases hend : m.state = MeetingState.kEnded
        · simp only [if_pos hend]
          exact h
        · simp only [if_neg hend]
          by_cases hmem : cmd.participant_id ∈ m.participants
          · simp only [if_pos hmem]
            exact h
          · simp only [if_neg hmem]
            by_cases hfull : config.max_participants ≤ m.participants.length
            · simp only [if_pos hfull]
              exact h
            · simp only [if_neg hfull]
              have haddeq : repoAddParticipant r cmd.meeting_id
                  cmd.participant_id false =
                  (Status.OK, repoSet r cmd.meeting_id (fun d =>
                    { d with participants :=
                        d.participants ++ [cmd.participant_id] })) := by
                simp only [repoAddParticipant, hget]
                rw [if_neg hmem]
              have hadd := @repoAdd_inv flag _ cmd.meeting_id cmd.participant_id false h
              rw [haddeq] at hadd
              rw [haddeq]
              rw [if_neg (by decide : ¬(Status.OK.IsOk = false))]
              have hmkey : m.meeting_id = cmd.meeting_id :=
                h.2.1 (cmd.meeting_id, m) (lookup_mem hget)
              by_cases htr : m.state = MeetingState.kScheduled ∧
                  cmd.participant_id ≠ m.organizer_id
              · simp only [if_pos htr]
                have hget1 : (repoSet r cmd.meeting_id (fun d =>
                    { d with participants :=
                        d.participants ++ [cmd.participant_id] })).lookup
                      m.meeting_id =
                    some { m with participants :=
                        m.participants ++ [cmd.participant_id] } := by
                  rw [hmkey, lookup_repoSet_self, hget]
                  simp
                  exact hmkey
                have htarget : flag = true →
                    MeetingState.kRunning ≠ MeetingState.kEnded →
                    ({ m with participants :=
                        m.participants ++ [cmd.participant_id] }).organizer_id ∈
                      ({ m with participants :=
                        m.participants ++ [cmd.participant_id] }).participants := by
                  intro hflag _
                  have horgm : m.organizer_id ∈ m.participants :=
                    h.2.2.2 hflag (cmd.meeting_id, m) (lookup_mem hget) hend
                  exact List.mem_append_left _ horgm
                have hupd := @repoUpd_inv flag _ _ MeetingState.kRunning now _
                  hadd.1 hadd.2.1 hadd.2.2.1 hget1
                  (fun hf p hp _ => hadd.2.2.2 hf p hp) htarget
                exact hupd
              · simp only [if_neg htr]
                exact hadd

/-- From the source: `EndMeeting` preserves the repository invariant. -/
theorem endMeeting_inv {flag : Bool} (r : MeetingRepo) (cmd : EndMeetingCommand)
    (now : Int) (h : RepoInv flag r) :
    RepoInv flag (endMeeting r cmd now).2.1 := by
  unfold endMeeting
  by_cases h1 : cmd.meeting_id = ""
  · simp only [if_pos h1]
    exact h
  · simp only [if_neg h1]
    by_cases h2 : cmd.requester_id = 0
    · simp only [if_pos h2]
      exact h
    · simp only [if_neg h2]
      unfold repoGetMeeting
      cases hget : r.lookup cmd.meeting_id with
      | none => exact h
      | some m =>
        by_cases hend : m.state = MeetingState.kEnded
        · simp only [if_pos hend]
          exact h
        · simp only [if_neg hend]
          by_cases horg : cmd.requester_id ≠ m.organizer_id
          · simp only [if_pos horg]
            exact h
          · simp only [if_neg horg]
            have hupd := @repoUpd_inv flag _ _ MeetingState.kEnded now _
              h.1 h.2.1 h.2.2.1 hget (fun hf p hp _ => h.2.2.2 hf p hp)
              (fun _ hcon => absurd rfl hcon)
            exact hupd

/-- From the source: `LeaveMeeting` preserves the repository invariant (tracking the
organizer clause exactly when `end_when_organizer_leaves` is set: a
leaving organizer then ends the meeting, making the clause vacuous). -/
theorem leaveMeeting_inv (config : MeetingConfig) (r : MeetingRepo)
    (cmd : LeaveMeetingCommand) (now : Int)
    (h : RepoInv config.end_when_organizer_leaves r) :
    RepoInv config.end_when_organizer_leaves (leaveMeeting config r cmd now).2.1 := by
  unfold leaveMeeting
  by_cases h1 : cmd.meeting_id = ""
  · simp only [if_pos h1]
    exact h
  · simp only [if_neg h1]
    by_cases h2 : cmd.participant_id = 0
    · simp only [if_pos h2]
      exact h
    · simp only [if_neg h2]
      unfold repoGetMeeting
      cases hget : r.lookup cmd.meeting_id with
      | none => exact h
      | some m =>
        by_cases hmem : cmd.participant_id ∈ m.participants
        · simp only [if_pos hmem]
          have hrmeq : repoRemoveParticipant r cmd.meeting_id cmd.participant_id =
              (Status.OK, repoSet r cmd.meeting_id (fun d =>
                { d with participants :=
                    d.participants.erase cmd.participant_id })) := by
            simp only [repoRemoveParticipant, hget]
            rw [if_pos hmem]
          have hrm := @repoRemove_inv config.end_when_organizer_leaves _
            cmd.meeting_id cmd.participant_id h
          rw [hrmeq] at hrm
          rw [hrmeq]
          rw [if_neg (by decide : ¬(Status.OK.IsOk = false))]
          have hmkey : m.meeting_id = cmd.meeting_id :=
            h.2.1 (cmd.meeting_id, m) (lookup_mem hget)
          have hget1 : (repoSet r cmd.meeting_id (fun d =>
              { d with participants :=
                  d.participants.erase cmd.participant_id })).lookup
                m.meeting_id =
              some { m with participants :=
                  m.participants.erase cmd.participant_id } := by
            rw [hmkey, lookup_repoSet_self, hget]
            simp
            exact hmkey
          by_cases hOrgBranch : cmd.participant_id = m.organizer_id ∧
              config.end_when_organizer_leaves = true
          · simp only [if_pos hOrgBranch]
            have hupd := @repoUpd_inv config.end_when_organizer_leaves _ _
              MeetingState.kEnded now _ hrm.1 hrm.2.1 hrm.2.2.1 hget1
              (fun hf p hp hpk => hrm.2.2.2.1 hf p hp (by rw [hmkey] at hpk; exact hpk))
            exact hupd (fun _ hcon => absurd rfl hcon)
          · simp only [if_neg hOrgBranch]
            have hr1 : RepoInv config.end_when_organizer_leaves
                (repoSet r cmd.meeting_id (fun d =>
                  { d with participants :=
                      d.participants.erase cmd.participant_id })) := by
              refine ⟨hrm.1, hrm.2.1, hrm.2.2.1, ?_⟩
              intro hflag
              apply hrm.2.2.2.2 hflag
              intro m' hgetm' hcon
              apply hOrgBranch
              have : m' = m := by
                rw [hget] at hgetm'
                injection hgetm' with hv
                exact hv.symm
              subst this
              exact ⟨hcon, hflag⟩
            split
            · have hupd := @repoUpd_inv config.end_when_organizer_leaves _ _
                MeetingState.kEnded now _ hr1.1 hr1.2.1 hr1.2.2.1 hget1
                (fun hf p hp _ => hr1.2.2.2 hf p hp)
                (fun _ hcon => absurd rfl hcon)
              exact hupd
            · exact hr1
        · simp only [if_neg hmem]
          exact h

theorem meetingRepo_inv (config : MeetingConfig) (r : MeetingRepo)
    (h : ReachM config r) : RepoInv config.end_when_organizer_leaves r := by
  induction h with
  | init =>
    refine ⟨?_, ?_, ?_, ?_⟩
    · simp [KeysOK]
    · intro p hp
      simp at hp
    · intro p hp
      simp at hp
    · intro _ p hp
      simp at hp
  | create r cmd gid gcode now _ ih => exact createMeeting_inv r cmd gid gcode now ih
  | join r cmd now _ ih => exact joinMeeting_inv config r cmd now ih
  | leave r cmd now _ ih => exact leaveMeeting_inv config r cmd now ih
  | endm r cmd now _ ih => exact endMeeting_inv r cmd now ih

/-- C4 (amended): in every repository reachable through CreateMeeting,
JoinMeeting, LeaveMeeting, and EndMeeting, no participants list contains
duplicates (under any `MeetingConfig`); and provided
`end_when_organizer_leaves` is set (the default), the organizer is a
member of every meeting whose state is not Ended.  With
`end_when_organizer_leaves` unset the organizer-membership half fails —
see the counterexample. -/
theorem meeting_organizer_invariant (config : MeetingConfig) (r : MeetingRepo)
    (h : ReachM config r) (id : String) (m : MeetingData)
    (hget : r.lookup id = some m) :
    m.participants.Nodup ∧
      (config.end_when_organizer_leaves = true →
        m.state ≠ MeetingState.kEnded → m.organizer_id ∈ m.participants) := by
  have hinv := meetingRepo_inv config r h
  have hmem := lookup_mem hget
  exact ⟨hinv.2.2.1 (id, m) hmem, fun hf hst => hinv.2.2.2 hf (id, m) hmem hst⟩

/-- Counterexample run: `end_when_organizer_leaves` disabled; the
organizer creates meeting "m", user 2 joins (Scheduled→Running), then the
organizer leaves. -/
def c4Cfg : MeetingConfig := { end_when_organizer_leaves := false }

def c4r1 : MeetingRepo := (createMeeting [] ⟨1, "t"⟩ "m" "CODE" 0).2.1

def c4r2 : MeetingRepo := (joinMeeting c4Cfg c4r1 ⟨"m", 2⟩ 1).2.1

def c4r3 : MeetingRepo := (leaveMeeting c4Cfg c4r2 ⟨"m", 1⟩ 2).2.1

/-- The stored meeting after that run: still Running, organizer 1 no
longer among the participants. -/
def c4Bad : MeetingData :=
  { meeting_id := "m", meeting_code := "CODE", organizer_id := 1, topic := "t"
    state := MeetingState.kRunning, participants := [2], created_at := 0
    updated_at := 1 }

/-- C4 counterexample: the claim quantifies over any `MeetingConfig`, but
with `end_when_organizer_leaves = false` the organizer can leave a
non-Ended meeting: the reachable repository `c4r3` stores meeting "m" in
state Running with participants `[2]` — the organizer `1` is not a
member. -/
theorem meeting_organizer_counterexample :
    ReachM c4Cfg c4r3 ∧ c4r3.lookup "m" = some c4Bad ∧
      c4Bad.state ≠ MeetingState.kEnded ∧
      c4Bad.organizer_id ∉ c4Bad.participants :=
  ⟨ReachM.leave _ _ _ (ReachM.join _ _ _ (ReachM.create _ _ _ _ _ ReachM.init)),
    by decide, by decide, by decide⟩

/-- Witness for `meeting_organizer_invariant`: the default configuration
after a create and a join. -/
def c4wR : MeetingRepo :=
  (joinMeeting {} (createMeeting [] ⟨1, "t"⟩ "m" "CODE" 0).2.1 ⟨"m", 2⟩ 1).2.1

/-- The stored meeting of the witness run. -/
def c4wM : MeetingData :=
  { meeting_id := "m", meeting_code := "CODE", organizer_id := 1, topic := "t"
    state := MeetingState.kRunning, participants := [1, 2], created_at := 0
    updated_at := 1 }

theorem meeting_organizer_invariant_witness :
    ReachM {} c4wR ∧ c4wR.lookup "m" = some c4wM ∧
      (c4wM.participants.Nodup ∧
        (({} : MeetingConfig).end_when_organizer_leaves = true →
          c4wM.state ≠ MeetingState.kEnded →
          c4wM.organizer_id ∈ c4wM.participants)) := by
  have hreach : ReachM ({} : MeetingConfig) c4wR :=
    ReachM.join _ _ _ (ReachM.create _ _ _ _ _ ReachM.init)
  exact ⟨hreach, by decide,
    meeting_organizer_invariant {} c4wR hreach "m" c4wM (by decide)⟩

end MeetingServer
